import Mathlib

/-!
Shallow embedding of the model persistence and inference subsystem of the
Behavioural-Health-Companion repository
(`src/mlService/ml-inference-service/models/model_persistence.py` and the
prediction post-processing of `src/mlService/ml-inference-service/main.py`).

Python dictionaries are modelled as insertion-ordered association lists
(`List (key × value)`), which reproduces dict iteration order, `dict[k] = v`
(update in place, append if fresh) and `del dict[k]` (remove the unique
binding).  Durable storage is a record of path-indexed documents; registry
writes consult an environment flag so that write failures can be analysed.
Exceptions are modelled with `Except`.  Wall-clock readings (`datetime.now`)
are environment inputs indexed by a per-state counter.
-/

set_option autoImplicit false

namespace BHC

/-- Python runtime values that flow through the prediction path: bare numeric
scalars, strings, plain lists, numpy arrays (which expose `tolist`) and torch
tensors (which expose `cpu`). -/
inductive PyVal where
  | int : Int → PyVal
  | str : String → PyVal
  | list : List PyVal → PyVal
  | ndarray : List PyVal → PyVal
  | tensor : List PyVal → PyVal
deriving Inhabited

mutual

/-- `ndarray.tolist()` / `tensor.tolist()`: recursively convert array-like
values to plain nested lists; scalars and plain lists are untouched. -/
def toNested : PyVal → PyVal
  | .ndarray xs => .list (toNestedList xs)
  | .tensor xs => .list (toNestedList xs)
  | .int n => .int n
  | .str s => .str s
  | .list xs => .list (toNestedList xs)

def toNestedList : List PyVal → List PyVal
  | [] => []
  | x :: xs => toNested x :: toNestedList xs

end

/-- `hasattr(v, "tolist")`: numpy arrays and torch tensors expose `tolist`;
bare Python scalars, strings and plain lists do not.  Returns the converted
value when the attribute exists. -/
def pyTolist : PyVal → Option PyVal
  | .ndarray xs => some (.list (toNestedList xs))
  | .tensor xs => some (.list (toNestedList xs))
  | _ => none

/-- Is the value a plain Python sequence (a `list`)? -/
def isSequence : PyVal → Bool
  | .list _ => true
  | _ => false

/- ### String helpers

Structural-recursion models of the path and string operations the source
uses (`Path(...).name`, `Path(...).suffix`, `str.replace`), written over
character lists so that concrete instances evaluate by `decide`. -/

/-- Python's `<` on strings: lexicographic comparison of code points. -/
def lexLt : List Char → List Char → Bool
  | [], [] => false
  | [], _ :: _ => true
  | _ :: _, [] => false
  | a :: as, b :: bs =>
    if a.toNat < b.toNat then true
    else if b.toNat < a.toNat then false
    else lexLt as bs

/-- `s < t` for Python strings. -/
def strLtB (s t : String) : Bool := lexLt s.data t.data

/-- Well-formedness of a `strftime("%Y%m%d_%H%M%S")` reading: fifteen
characters, each a digit or the underscore. -/
def TimestampOk (s : String) : Prop :=
  s.data.length = 15 ∧ ∀ c ∈ s.data, c.isDigit = true ∨ c = '_'

instance (s : String) : Decidable (TimestampOk s) := by
  unfold TimestampOk; infer_instance

/-- Characters after the last occurrence of `sep`; the whole list when `sep`
does not occur. -/
def afterLast (sep : Char) (cs : List Char) : List Char :=
  cs.foldl (fun acc c => if c = sep then [] else acc ++ [c]) []

/-- `Path(s).name`: the final path component. -/
def baseName (s : String) : String := ⟨afterLast '/' s.data⟩

/-- `Path(s).suffix[1:]`: the extension of the final component without the
dot, `""` when the component has no dot.  (The `Path` corner case of a
leading-dot-only name does not arise for the paths this system builds.) -/
def extAfterDot (s : String) : String :=
  let b := (baseName s).data
  if '.' ∈ b then ⟨afterLast '.' b⟩ else ""

/-- `subject.replace(pat, rep)` on character lists: replace all
non-overlapping occurrences scanning left to right.  `fuel` bounds the
recursion and is always instantiated with the subject's length, which
suffices because every step consumes at least one character.  (The code
never calls `replace` with an empty pattern; for safety an empty pattern is
treated as matching nowhere.) -/
def replChars (pat rep : List Char) : Nat → List Char → List Char
  | _, [] => []
  | 0, l => l
  | fuel + 1, c :: cs =>
    if pat ≠ [] ∧ pat.isPrefixOf (c :: cs) then
      rep ++ replChars pat rep fuel (List.drop (pat.length - 1) cs)
    else
      c :: replChars pat rep fuel cs

/-- `s.replace(pat, rep)`. -/
def pyReplace (s pat rep : String) : String :=
  ⟨replChars pat.data rep.data s.data.length s.data⟩

/-- Is `p` a direct child of directory `dir` (i.e. `dir ++ "/" ++ name` with
no further separator)?  Models `Path(dir).iterdir()` / `glob` membership on
the flat path-indexed stores below. -/
def directChild (dir p : String) : Bool :=
  let pre := (dir ++ "/").data
  pre.isPrefixOf p.data && !((p.data.drop pre.length).contains '/')

/-- Does the path name end with the given literal (models `glob("*" + pat)`)? -/
def endsWithStr (p pat : String) : Bool :=
  pat.data.isSuffixOf p.data

/- ### Association lists (Python dict model) -/

section AssocList
variable {α : Type}

/-- `d.get(k)` / `k in d`. -/
def lookupAL (l : List (String × α)) (k : String) : Option α :=
  match l with
  | [] => none
  | (k', v) :: rest => if k' = k then some v else lookupAL rest k

/-- `d[k] = v`: update in place when the key exists, append otherwise
(Python dict insertion order). -/
def insertAL (l : List (String × α)) (k : String) (v : α) : List (String × α) :=
  match l with
  | [] => [(k, v)]
  | (k', v') :: rest => if k' = k then (k, v) :: rest else (k', v') :: insertAL rest k v

/-- `del d[k]`: remove the binding of `k` (the first one; keys of a real dict
are unique). -/
def eraseAL (l : List (String × α)) (k : String) : List (String × α) :=
  match l with
  | [] => []
  | (k', v') :: rest => if k' = k then rest else (k', v') :: eraseAL rest k

/-- The keys of an association list. -/
def keysAL (l : List (String × α)) : List String := l.map (·.1)

end AssocList

/- ### Data model (`model_persistence.py`, lines 33-53 and the registry
dictionaries built in `save_model`/`restore_model`) -/

/-- One registry entry, as written by `save_model` (lines 231-238) and
`restore_model` (lines 520-527).  `active` is an `Option` because the code
reads it with `v.get('active', True)`: a JSON entry may lack the key. -/
structure RegistryEntry where
  version : String
  training_date : String
  performance_metrics : List (String × Int)
  file_path : String
  metadata_path : String
  active : Option Bool
deriving Repr, DecidableEq

/-- `model_name → model_id → entry`, insertion ordered. -/
abbrev Registry := List (String × List (String × RegistryEntry))

/-- The `ModelMetadata` dataclass (lines 33-53).  Metric values are modelled
as integers: they are opaque to this layer. -/
structure ModelMetadata where
  model_id : String
  model_name : String
  model_type : String
  version : String
  training_date : String
  performance_metrics : List (String × Int)
  parameters : List (String × String)
  data_hash : String
  file_path : String
  file_size : Nat
  gpu_compatible : Bool
  framework_version : String
  python_version : String
  dependencies : List (String × String)
deriving Repr, DecidableEq

/-- The opaque model object: a capability record for the duck typing the
source performs (`state_dict`/`BaseEstimator`/`save` detection in
`_detect_model_type`, `predict`/`predict_proba` dispatch in the inference
pipeline, `__call__` for torch models). -/
structure OpaqueModel where
  hasStateDict : Bool
  isBaseEstimator : Bool
  hasSaveAttr : Bool
  hasPredict : Bool
  predictFn : PyVal → PyVal
  hasPredictProba : Bool
  predictProbaFn : PyVal → PyVal
  forwardFn : PyVal → PyVal
  hasParameters : Bool
  paramsCuda : Bool

/-- Error taxonomy: the distinct Python exception classes and messages the
module raises. -/
inductive Err where
  /-- `ValueError("Model ... not found in registry")` / no active models -/
  | notFound
  /-- `FileNotFoundError` for a missing metadata document or artifact file -/
  | missingArtifact
  /-- `ValueError("Model ... not loaded. Call load_model_for_inference first.")` -/
  | notLoaded
  /-- `ValueError("Model type ... does not support prediction")` -/
  | unsupported
  /-- exception raised by `json.dump` when writing the registry document -/
  | writeFailed
  /-- `AttributeError` from duck-typed attribute access -/
  | attributeError
  /-- `KeyError` from a dict access -/
  | keyError
deriving Repr, DecidableEq

/-- The error of a fallible outcome, `none` on success (convenient for
stating properties of outcomes whose success value carries functions). -/
def errOf {α : Type} : Except Err α → Option Err
  | .error e => some e
  | .ok _ => none

/-- Did the operation succeed? -/
def isOkE {α : Type} : Except Err α → Bool
  | .ok _ => true
  | .error _ => false

instance instDecEqExceptErr {α : Type} [DecidableEq α] : DecidableEq (Except Err α) :=
  fun a b =>
    match a, b with
    | .error e₁, .error e₂ =>
      if h : e₁ = e₂ then .isTrue (by rw [h]) else .isFalse (fun hh => h (Except.error.inj hh))
    | .ok x, .ok y =>
      if h : x = y then .isTrue (by rw [h]) else .isFalse (fun hh => h (Except.ok.inj hh))
    | .error _, .ok _ => .isFalse (fun hh => Except.noConfusion hh)
    | .ok _, .error _ => .isFalse (fun hh => Except.noConfusion hh)

/-- Durable storage: the registry document, metadata documents and artifact
files, all indexed by path, plus a storage-access counter (the spec's
testability hook for "no re-read of durable storage"). -/
structure Disk where
  registryDoc : Registry
  metaDocs : List (String × ModelMetadata)
  artifacts : List (String × OpaqueModel)
  reads : Nat

/-- The `ModelPersistenceManager` state: its configured paths, the in-memory
registry, the durable storage it owns, and counters indexing the
environment's write/clock sequences. -/
structure PMState where
  base_path : String
  backup_path : String
  registry : Registry
  disk : Disk
  writeCtr : Nat
  timeCtr : Nat

/-- Ambient environment: whether the n-th registry-document write succeeds,
the n-th wall-clock reading (as `strftime("%Y%m%d_%H%M%S")` and
`isoformat()` strings), the md5 digest function, serialized artifact sizes,
and the installed framework versions. -/
structure Env where
  writeOk : Nat → Bool
  stamp : Nat → String
  iso : Nat → String
  md5 : String → String
  sizeOfArtifact : OpaqueModel → Nat
  frameworks : List (String × String)

/- ### ModelPersistenceManager operations -/

/-- `_save_registry` (lines 93-101): `json.dump` the in-memory registry to
the registry document; on failure the exception is re-raised to the caller
(the in-memory registry is untouched either way). -/
def save_registry (env : Env) (st : PMState) : Except Err Unit × PMState :=
  if env.writeOk st.writeCtr then
    (.ok (), { st with disk := { st.disk with registryDoc := st.registry },
                       writeCtr := st.writeCtr + 1 })
  else
    (.error .writeFailed, { st with writeCtr := st.writeCtr + 1 })

/-- `_generate_model_id` (lines 103-106): `f"{model_name}_v{version}_{timestamp}"`. -/
def generate_model_id (model_name version timestamp : String) : String :=
  model_name ++ "_v" ++ version ++ "_" ++ timestamp

/-- `_detect_model_type` (lines 250-259). -/
def detect_model_type (model : OpaqueModel) : String :=
  if model.hasStateDict then "pytorch"
  else if model.isBaseEstimator then "sklearn"
  else if model.hasSaveAttr then "tensorflow"
  else "custom"

/-- `model_name → model_id → entry` update performed by `save_model`
(lines 228-238) and `restore_model` (lines 517-527): create the name's map
when absent (dict insertion appends), then set the id's entry in place. -/
def registryInsert (r : Registry) (name id : String) (e : RegistryEntry) : Registry :=
  match r with
  | [] => [(name, [(id, e)])]
  | (n, ms) :: rest =>
    if n = name then (n, insertAL ms id e) :: rest
    else (n, ms) :: registryInsert rest name id e

/-- Registry-entry removal performed by `delete_model` (lines 405-410):
remove the id from the name's map, and remove the whole name when its map
becomes empty.  (Only called when `id` is a key of `name`'s map.) -/
def registryErase (r : Registry) (name id : String) : Registry :=
  match r with
  | [] => []
  | (n, ms) :: rest =>
    if n = name then
      let ms' := eraseAL ms id
      if ms' = [] then rest else (n, ms') :: rest
    else (n, ms) :: registryErase rest name id

/-- The registry scan `for name, models in self.registry.items(): if
model_id in models: ... break` used by `load_model`, `delete_model`,
`backup_model` and `get_model_info`. -/
def findModel (r : Registry) (model_id : String) : Option (String × RegistryEntry) :=
  match r with
  | [] => none
  | (name, models) :: rest =>
    match lookupAL models model_id with
    | some info => some (name, info)
    | none => findModel rest model_id

/-- `save_model` (lines 145-248).  The serialized-artifact write, metadata
document write and registry mutation happen in source order; the registry
write may fail, in which case the exception propagates while every earlier
mutation (including the in-memory registry update) is retained, exactly as
in the Python (`raise` inside `except`). -/
def save_model (env : Env) (st : PMState) (model : OpaqueModel)
    (model_name version : String) (performance_metrics : List (String × Int))
    (training_data : Option String) (parameters : Option (List (String × String)))
    (model_type? : Option String) : Except Err String × PMState :=
  let ts := env.stamp st.timeCtr
  let model_id := generate_model_id model_name version ts
  let model_type := model_type?.getD (detect_model_type model)
  let model_dir := st.base_path ++ "/" ++ model_id
  let ext := if model_type = "pytorch" then ".pth" else ".pkl"
  let file_path := model_dir ++ "/" ++ model_id ++ ext
  let gpu_compatible :=
    if model_type = "pytorch" then model.hasParameters && model.paramsCuda else false
  -- torch.save / joblib.dump / pickle.dump
  let disk1 := { st.disk with artifacts := insertAL st.disk.artifacts file_path model }
  let file_size := env.sizeOfArtifact model
  let data_hash := match training_data with
    | some d => env.md5 d
    | none => ""
  let training_date := env.iso (st.timeCtr + 1)
  let metadata : ModelMetadata :=
    { model_id := model_id
      model_name := model_name
      model_type := model_type
      version := version
      training_date := training_date
      performance_metrics := performance_metrics
      parameters := parameters.getD []
      data_hash := data_hash
      file_path := file_path
      file_size := file_size
      gpu_compatible := gpu_compatible
      framework_version := (lookupAL env.frameworks model_type).getD ""
      python_version := (lookupAL env.frameworks "python").getD ""
      dependencies := env.frameworks }
  let metadata_path := model_dir ++ "/" ++ model_id ++ "_metadata.json"
  let disk2 := { disk1 with metaDocs := insertAL disk1.metaDocs metadata_path metadata }
  let entry : RegistryEntry :=
    { version := version
      training_date := training_date
      performance_metrics := performance_metrics
      file_path := file_path
      metadata_path := metadata_path
      active := some true }
  let st1 := { st with disk := disk2
                       registry := registryInsert st.registry model_name model_id entry
                       timeCtr := st.timeCtr + 2 }
  match save_registry env st1 with
  | (.ok _, st2) => (.ok model_id, st2)
  | (.error e, st2) => (.error e, st2)

/-- `load_model` (lines 261-316): registry scan, then the metadata document,
then the artifact file; the storage-access counter counts the two file
reads. -/
def load_model (st : PMState) (model_id : String) :
    Except Err (OpaqueModel × ModelMetadata) × PMState :=
  match findModel st.registry model_id with
  | none => (.error .notFound, st)
  | some (_, model_info) =>
    match lookupAL st.disk.metaDocs model_info.metadata_path with
    | none => (.error .missingArtifact, st)
    | some metadata =>
      match lookupAL st.disk.artifacts model_info.file_path with
      | none =>
        (.error .missingArtifact, { st with disk := { st.disk with reads := st.disk.reads + 1 } })
      | some model =>
        (.ok (model, metadata), { st with disk := { st.disk with reads := st.disk.reads + 2 } })

/-- The active-entry filter `{k: v for k, v in models.items() if
v.get('active', True)}` shared by `load_latest_model` (line 333) and
`cleanup_old_models` (line 597). -/
def activeOf (models : List (String × RegistryEntry)) : List (String × RegistryEntry) :=
  models.filter (fun p => p.2.active.getD true)

/-- `max(..., key=lambda x: ...['training_date'])`: Python's `max` keeps the
first of several maximal elements, which this left fold reproduces. -/
def maxByDate (p : String × RegistryEntry) (ps : List (String × RegistryEntry)) :
    String × RegistryEntry :=
  ps.foldl (fun best q => if strLtB best.2.training_date q.2.training_date then q else best) p

/-- The latest-version resolution of `load_latest_model` (lines 328-340):
`max(active_models.keys(), key=lambda x: active_models[x]['training_date'])`
over the active entries. -/
def resolve_latest (reg : Registry) (model_name : String) : Except Err String :=
  match lookupAL reg model_name with
  | none => .error .notFound
  | some models =>
    match activeOf models with
    | [] => .error .notFound
    | p :: ps => .ok (maxByDate p ps).1

/-- `load_latest_model` (lines 318-342). -/
def load_latest_model (st : PMState) (model_name : String) :
    Except Err (OpaqueModel × ModelMetadata) × PMState :=
  match resolve_latest st.registry model_name with
  | .error e => (.error e, st)
  | .ok latest_model_id => load_model st latest_model_id

/-- `backup_model` (lines 422-463): copy (never move) the artifact and the
metadata document, when they exist, into a freshly stamped backup
directory; the registry is untouched. -/
def backup_model (env : Env) (st : PMState) (model_id : String) :
    Except Err String × PMState :=
  match findModel st.registry model_id with
  | none => (.error .notFound, st)
  | some (_, model_info) =>
    let ts := env.stamp st.timeCtr
    let backup_dir := st.backup_path ++ "/" ++ model_id ++ "_" ++ ts
    let d := st.disk
    let d1 := match lookupAL d.artifacts model_info.file_path with
      | some m =>
        { d with artifacts :=
            insertAL d.artifacts (backup_dir ++ "/" ++ baseName model_info.file_path) m }
      | none => d
    let d2 := match lookupAL d1.metaDocs model_info.metadata_path with
      | some md =>
        { d1 with metaDocs :=
            insertAL d1.metaDocs (backup_dir ++ "/" ++ baseName model_info.metadata_path) md }
      | none => d1
    (.ok backup_dir, { st with disk := d2, timeCtr := st.timeCtr + 1 })

/-- `delete_model` (lines 361-420): backup first (unless suppressed), unlink
the artifact and metadata files, drop the registry entry (and the name when
empty), then persist the registry.  A failing registry write propagates
with the in-memory removal already performed (no re-insertion). -/
def delete_model (env : Env) (st : PMState) (model_id : String)
    (create_backup : Bool) : Except Err Bool × PMState :=
  match findModel st.registry model_id with
  | none => (.error .notFound, st)
  | some (model_name, model_info) =>
    let backedUp : Except Err Unit × PMState :=
      if create_backup then
        match backup_model env st model_id with
        | (.ok _, st') => (.ok (), st')
        | (.error e, st') => (.error e, st')
      else (.ok (), st)
    match backedUp with
    | (.error e, st1) => (.error e, st1)
    | (.ok _, st1) =>
      let d := st1.disk
      let d1 := { d with artifacts := eraseAL d.artifacts model_info.file_path,
                         metaDocs := eraseAL d.metaDocs model_info.metadata_path }
      -- removal of the now-empty model directory is filesystem-only
      let st2 := { st1 with disk := d1,
                            registry := registryErase st1.registry model_name model_id }
      match save_registry env st2 with
      | (.ok _, st3) => (.ok true, st3)
      | (.error e, st3) => (.error e, st3)

/-- `restore_model` (lines 465-537): find the metadata document in the
backup directory, synthesize a new model id, copy every file of the backup
into a fresh artifact directory renaming embedded occurrences of the old id,
rewrite the metadata's `model_id`/`file_path`, write the new metadata
document, insert a fresh registry entry and persist the registry. -/
def restore_model (env : Env) (st : PMState) (backup_path : String) :
    Except Err String × PMState :=
  let d := st.disk
  let pre := (backup_path ++ "/").data
  let dirExists := d.artifacts.any (fun p => pre.isPrefixOf p.1.data)
                || d.metaDocs.any (fun p => pre.isPrefixOf p.1.data)
  if !dirExists then (.error .missingArtifact, st)
  else
    match d.metaDocs.filter
        (fun p => directChild backup_path p.1 && endsWithStr p.1 "_metadata.json") with
    | [] => (.error .missingArtifact, st)
    | (_, metadata) :: _ =>
      let original_model_id := metadata.model_id
      let ts := env.stamp st.timeCtr
      let new_model_id :=
        generate_model_id metadata.model_name (metadata.version ++ "_restored") ts
      let model_dir := st.base_path ++ "/" ++ new_model_id
      -- for file_path in backup_dir.iterdir(): copy2 to the renamed target
      let arts' := d.artifacts.foldl
        (fun acc p => if directChild backup_path p.1 then
            insertAL acc
              (model_dir ++ "/" ++ pyReplace (baseName p.1) original_model_id new_model_id)
              p.2
          else acc) d.artifacts
      let metas' := d.metaDocs.foldl
        (fun acc p => if directChild backup_path p.1 then
            insertAL acc
              (model_dir ++ "/" ++ pyReplace (baseName p.1) original_model_id new_model_id)
              p.2
          else acc) d.metaDocs
      let metadata' := { metadata with
        model_id := new_model_id
        file_path := model_dir ++ "/" ++ new_model_id ++ "." ++ extAfterDot metadata.file_path }
      let new_metadata_path := model_dir ++ "/" ++ new_model_id ++ "_metadata.json"
      let metas'' := insertAL metas' new_metadata_path metadata'
      let entry : RegistryEntry :=
        { version := metadata.version ++ "_restored"
          training_date := metadata.training_date
          performance_metrics := metadata.performance_metrics
          file_path := metadata'.file_path
          metadata_path := new_metadata_path
          active := some true }
      let st1 := { st with
        disk := { d with artifacts := arts', metaDocs := metas'', reads := d.reads + 1 }
        registry := registryInsert st.registry metadata.model_name new_model_id entry
        timeCtr := st.timeCtr + 1 }
      match save_registry env st1 with
      | (.ok _, st2) => (.ok new_model_id, st2)
      | (.error e, st2) => (.error e, st2)

/-- The deletion loop of `cleanup_old_models` (lines 611-616): delete each
candidate with backup, collect the ids actually deleted, swallow per-item
failures and continue. -/
def cleanupLoop (env : Env) : List String → PMState → List String × PMState
  | [], st => ([], st)
  | model_id :: rest, st =>
    match delete_model env st model_id true with
    | (.ok _, st') =>
      let (ds, st'') := cleanupLoop env rest st'
      (model_id :: ds, st'')
    | (.error _, st') => cleanupLoop env rest st'

/-- `sorted(active_models.items(), key=lambda x: x[1]['training_date'],
reverse=True)` (lines 603-605): Python's sort is stable, and a stable sort
with the reversed comparison is exactly insertion sort with the relation
"`a` may precede `b` iff `a`'s training_date is not smaller". -/
def byDateDesc (a b : String × RegistryEntry) : Prop :=
  strLtB a.2.training_date b.2.training_date = false

instance : DecidableRel byDateDesc := fun a b => by
  unfold byDateDesc; infer_instance

def sortByDateDesc (l : List (String × RegistryEntry)) : List (String × RegistryEntry) :=
  List.insertionSort byDateDesc l

/-- `cleanup_old_models` (lines 582-619). -/
def cleanup_old_models (env : Env) (st : PMState) (model_name : String)
    (keep_versions : Nat) : List String × PMState :=
  match lookupAL st.registry model_name with
  | none => ([], st)
  | some models =>
    let active_models := activeOf models
    if active_models.length ≤ keep_versions then ([], st)
    else
      let sorted_models := sortByDateDesc active_models
      let models_to_delete := sorted_models.drop keep_versions
      cleanupLoop env (models_to_delete.map (·.1)) st

/- ### ModelInferencePipeline (lines 622-790) -/

/-- The inference cache: the two co-indexed dictionaries of
`ModelInferencePipeline.__init__` (lines 635-636). -/
structure Pipeline where
  loaded_models : List (String × OpaqueModel)
  model_metadata : List (String × ModelMetadata)

def emptyPipeline : Pipeline := ⟨[], []⟩

/-- `load_model_for_inference` (lines 640-668): resolve via
`load_latest_model` when no id is given (the cache key is then
`metadata.model_id`), otherwise via `load_model`; on success cache both the
live model and its metadata; on failure re-raise with the cache untouched. -/
def load_model_for_inference (st : PMState) (pl : Pipeline) (model_name : String)
    (model_id? : Option String) : Except Err String × PMState × Pipeline :=
  match model_id? with
  | none =>
    match load_latest_model st model_name with
    | (.error e, st') => (.error e, st', pl)
    | (.ok (model, metadata), st') =>
      let model_id := metadata.model_id
      (.ok model_id, st',
        { loaded_models := insertAL pl.loaded_models model_id model
          model_metadata := insertAL pl.model_metadata model_id metadata })
  | some model_id =>
    match load_model st model_id with
    | (.error e, st') => (.error e, st', pl)
    | (.ok (model, metadata), st') =>
      (.ok model_id, st',
        { loaded_models := insertAL pl.loaded_models model_id model
          model_metadata := insertAL pl.model_metadata model_id metadata })

/-- The result dictionary built by `predict` (lines 722-733). -/
structure PredictionResult where
  prediction : PyVal
  model_id : String
  model_name : String
  model_version : String
  timestamp : String
  probabilities : Option PyVal

/-- The type dispatch of `predict` (lines 690-719): pytorch forward with
tensor conversion (`torch.tensor` on ndarray input, `cpu().numpy()` on a
tensor result; device moves do not change the value), sklearn
`predict`/`predict_proba`, and the custom `predict` capability check. -/
def rawPrediction (model : OpaqueModel) (metadata : ModelMetadata) (input_data : PyVal) :
    Except Err (PyVal × Option PyVal) :=
  if metadata.model_type = "pytorch" then
    let input_tensor := match input_data with
      | .ndarray xs => .tensor xs
      | v => v
    let prediction := model.forwardFn input_tensor
    let prediction := match prediction with
      | .tensor xs => .ndarray xs
      | p => p
    .ok (prediction, none)
  else if metadata.model_type = "sklearn" then
    if model.hasPredict then
      let prediction := model.predictFn input_data
      let probabilities :=
        if model.hasPredictProba then some (model.predictProbaFn input_data) else none
      .ok (prediction, probabilities)
    else .error .attributeError
  else
    if model.hasPredict then .ok (model.predictFn input_data, none)
    else .error .unsupported

/-- `predict` (lines 670-739).  The result's `prediction` is
`prediction.tolist() if hasattr(prediction, 'tolist') else prediction`
(line 723); for sklearn models a non-`None` probabilities value is attached
via `probabilities.tolist()` (line 733).  The persistence manager is never
consulted: the state `st` passes through untouched.  `now_iso` is the
`datetime.now().isoformat()` reading. -/
def predict (pl : Pipeline) (st : PMState) (model_id : String) (input_data : PyVal)
    (now_iso : String) : Except Err PredictionResult × PMState × Pipeline :=
  match lookupAL pl.loaded_models model_id with
  | none => (.error .notLoaded, st, pl)
  | some model =>
    match lookupAL pl.model_metadata model_id with
    | none => (.error .keyError, st, pl)
    | some metadata =>
      match rawPrediction model metadata input_data with
      | .error e => (.error e, st, pl)
      | .ok (prediction, probabilities) =>
        let result : PredictionResult :=
          { prediction := (pyTolist prediction).getD prediction
            model_id := model_id
            model_name := metadata.model_name
            model_version := metadata.version
            timestamp := now_iso
            probabilities := none }
        if metadata.model_type = "sklearn" then
          match probabilities with
          | some probs =>
            match pyTolist probs with
            | some t => (.ok { result with probabilities := some t }, st, pl)
            | none => (.error .attributeError, st, pl)
          | none => (.ok result, st, pl)
        else (.ok result, st, pl)

/-- `unload_model` (lines 765-775): remove both cache entries when the id is
loaded, no-op otherwise.  (When the id were in `loaded_models` only, Python
would raise `KeyError` after having deleted the `loaded_models` entry;
deleting an absent key from an association list is the identity, so the
resulting state is the same.) -/
def unload_model (pl : Pipeline) (model_id : String) : Pipeline :=
  if (lookupAL pl.loaded_models model_id).isSome then
    { loaded_models := eraseAL pl.loaded_models model_id
      model_metadata := eraseAL pl.model_metadata model_id }
  else pl

/-- `get_loaded_models` (lines 777-784). -/
def get_loaded_models (pl : Pipeline) : List String := keysAL pl.loaded_models

/-- `clear_cache` (lines 786-790). -/
def clear_cache (_pl : Pipeline) : Pipeline := ⟨[], []⟩

/- ### Prediction post-processing in `main.py` (`perform_inference`) -/

mutual

/-- `ndarray.size`: total number of elements. -/
def pySizeArr : PyVal → Nat
  | .ndarray xs => pySizeList xs
  | _ => 1

def pySizeList : List PyVal → Nat
  | [] => 0
  | x :: xs => pySizeArr x + pySizeList xs

end

mutual

/-- `ndarray.item()`: the unique element of a size-one array (the leftmost
leaf; identical to numpy's behaviour for the size-one arrays on this code
path). -/
def pyItemArr : PyVal → PyVal
  | .ndarray xs => pyItemList xs
  | v => v

def pyItemList : List PyVal → PyVal
  | [] => .int 0
  | x :: _ => pyItemArr x

end

/-- `main.py` lines 132-142: the `final_prediction_list` computation of
`perform_inference` — a size-one ndarray becomes `[item]`, a larger ndarray
becomes its `tolist`, a non-list scalar is wrapped into a one-element list,
and a list passes through. -/
def final_prediction_list (prediction_result : PyVal) : PyVal :=
  match prediction_result with
  | .ndarray xs =>
    if pySizeArr (.ndarray xs) = 1 then .list [pyItemArr (.ndarray xs)]
    else (pyTolist (.ndarray xs)).getD (.ndarray xs)
  | .list xs => .list xs
  | v => .list [v]

mutual

/-- Does the value contain no live numpy array or torch tensor anywhere? -/
def noArraysB : PyVal → Bool
  | .int _ => true
  | .str _ => true
  | .list xs => noArraysListB xs
  | .ndarray _ => false
  | .tensor _ => false

def noArraysListB : List PyVal → Bool
  | [] => true
  | x :: xs => noArraysB x && noArraysListB xs

end

/-! ## Concrete fixtures used by witnesses -/

/-- A registry entry with the given training date. -/
def entryAt (d : String) : RegistryEntry :=
  { version := "1", training_date := d, performance_metrics := []
    file_path := "a", metadata_path := "b", active := some true }

/-- A persistence-manager state over the given registry (durable document in
sync, empty stores). -/
def pmOf (r : Registry) : PMState :=
  { base_path := "models", backup_path := "models/backups", registry := r
    disk := { registryDoc := r, metaDocs := [], artifacts := [], reads := 0 }
    writeCtr := 0, timeCtr := 0 }

/-- An environment whose registry writes all succeed. -/
def envAllOk : Env :=
  { writeOk := fun _ => true
    stamp := fun n => if n = 0 then "20240101_120000" else "20240102_130000"
    iso := fun _ => "2024-01-01T12:00:00"
    md5 := fun _ => "h"
    sizeOfArtifact := fun _ => 3
    frameworks := [("sklearn", "1.0"), ("python", "3.11")] }

/-- An environment whose registry writes all fail. -/
def envNoWrite : Env := { envAllOk with writeOk := fun _ => false }

/-- A plain custom model whose raw prediction is the bare scalar `7`. -/
def scalarModel : OpaqueModel :=
  { hasStateDict := false, isBaseEstimator := false, hasSaveAttr := false
    hasPredict := true, predictFn := fun _ => .int 7
    hasPredictProba := false, predictProbaFn := fun v => v
    forwardFn := fun v => v, hasParameters := false, paramsCuda := false }

/-- The three-dates registry of the spec's latest-resolution example. -/
def marchRegistry : Registry :=
  [("m", [("jan", entryAt "2024-01-01T00:00:00Z"),
          ("mar", entryAt "2024-03-01T00:00:00Z"),
          ("dec", entryAt "2023-12-01T00:00:00Z")])]

/-- A registry whose only entries for `"m"` are inactive. -/
def inactiveRegistry : Registry :=
  [("m", [("jan", { entryAt "2024-01-01T00:00:00Z" with active := some false })])]

/-- Seven active versions of one model, in training-date order. -/
def reg7 : Registry :=
  [("m", [("id0", entryAt "2024-01-01"), ("id1", entryAt "2024-02-01"),
          ("id2", entryAt "2024-03-01"), ("id3", entryAt "2024-04-01"),
          ("id4", entryAt "2024-05-01"), ("id5", entryAt "2024-06-01"),
          ("id6", entryAt "2024-07-01")])]

/-- Metadata of a cached custom model. -/
def mdCustom : ModelMetadata :=
  { model_id := "cid", model_name := "m", model_type := "custom", version := "1"
    training_date := "t", performance_metrics := [], parameters := [], data_hash := ""
    file_path := "a", file_size := 0, gpu_compatible := false, framework_version := ""
    python_version := "", dependencies := [] }

/-- A pipeline whose cache holds the scalar-returning custom model. -/
def plScalar : Pipeline :=
  { loaded_models := [("cid", scalarModel)], model_metadata := [("cid", mdCustom)] }

/-- Registry entry of the delete/restore fixture model. -/
def entryFix5 : RegistryEntry :=
  { version := "1", training_date := "2024-01-01"
    performance_metrics := []
    file_path := "models/m_v1_20240101_120000/m_v1_20240101_120000.pkl"
    metadata_path := "models/m_v1_20240101_120000/m_v1_20240101_120000_metadata.json"
    active := some true }

/-- Metadata document of the delete/restore fixture model. -/
def mdFix5 : ModelMetadata :=
  { model_id := "m_v1_20240101_120000", model_name := "m", model_type := "custom"
    version := "1", training_date := "2024-01-01", performance_metrics := []
    parameters := [], data_hash := ""
    file_path := "models/m_v1_20240101_120000/m_v1_20240101_120000.pkl"
    file_size := 3, gpu_compatible := false, framework_version := ""
    python_version := "", dependencies := [] }

/-- A manager state holding exactly the fixture model, with the registry
synchronized to durable storage. -/
def stFix5 : PMState :=
  { base_path := "models", backup_path := "backups"
    registry := [("m", [("m_v1_20240101_120000", entryFix5)])]
    disk := { registryDoc := [("m", [("m_v1_20240101_120000", entryFix5)])]
              metaDocs := [(entryFix5.metadata_path, mdFix5)]
              artifacts := [(entryFix5.file_path, scalarModel)]
              reads := 0 }
    writeCtr := 0, timeCtr := 0 }

/-- The operations a caller can run against the inference cache
(`load_model_for_inference`, `predict`, `unload_model`, `clear_cache`). -/
inductive CacheOp where
  | loadForInference (model_name : String) (model_id? : Option String)
  | doPredict (model_id : String) (input : PyVal) (iso : String)
  | unload (model_id : String)
  | clearAll

/-- One cache operation acting on the persistence-manager/pipeline pair
(results discarded, exceptions surfaced to the caller leave the shown
state). -/
def cacheStep (s : PMState × Pipeline) : CacheOp → PMState × Pipeline
  | .loadForInference model_name model_id? =>
    ((load_model_for_inference s.1 s.2 model_name model_id?).2.1,
     (load_model_for_inference s.1 s.2 model_name model_id?).2.2)
  | .doPredict model_id input iso =>
    ((predict s.2 s.1 model_id input iso).2.1,
     (predict s.2 s.1 model_id input iso).2.2)
  | .unload model_id => (s.1, unload_model s.2 model_id)
  | .clearAll => (s.1, clear_cache s.2)

/-- Run a sequence of cache operations from the freshly constructed (empty)
inference cache. -/
def runCacheOps (st : PMState) (ops : List CacheOp) : PMState × Pipeline :=
  ops.foldl cacheStep (st, emptyPipeline)

/-- The two cache dictionaries are keyed by the same set of model ids. -/
def coIndexed (pl : Pipeline) : Prop :=
  ∀ k, (lookupAL pl.loaded_models k).isSome = (lookupAL pl.model_metadata k).isSome

/-- Well-formedness of the cache: co-indexed and duplicate-free keys (true
of every reachable cache state). -/
def cacheWF (pl : Pipeline) : Prop :=
  coIndexed pl ∧ (keysAL pl.loaded_models).Nodup ∧ (keysAL pl.model_metadata).Nodup

/-- Registry well-formedness: model names are unique and every model id
appears under exactly one name (always true of a registry produced by the
manager, whose states come from Python dicts). -/
def RegistryWF (r : Registry) : Prop :=
  (keysAL r).Nodup ∧ ((r.map (fun p => keysAL p.2)).flatten).Nodup

instance (r : Registry) : Decidable (RegistryWF r) := by
  unfold RegistryWF; infer_instance

/-- The candidate ids of a cleanup run whose registry-document write
succeeded, in attempt order: each deletion consumes one write slot whether
or not it succeeds. -/
def survivors (env : Env) : Nat → List String → List String
  | _, [] => []
  | c, id :: ids =>
    if env.writeOk c then id :: survivors env (c + 1) ids
    else survivors env (c + 1) ids

/-! ## Lemmas about the association-list dictionary model -/

section ALLemmas
variable {α : Type}

@[simp] theorem lookupAL_nil (k : String) : lookupAL ([] : List (String × α)) k = none := rfl

@[simp] theorem lookupAL_insertAL_self (l : List (String × α)) (k : String) (v : α) :
    lookupAL (insertAL l k v) k = some v := by
  induction l with
  | nil => simp [insertAL, lookupAL]
  | cons p rest ih =>
    obtain ⟨k', v'⟩ := p
    by_cases h : k' = k <;> simp [insertAL, lookupAL, h, ih]

theorem lookupAL_insertAL_ne (l : List (String × α)) (k k' : String) (v : α)
    (h : k' ≠ k) : lookupAL (insertAL l k v) k' = lookupAL l k' := by
  have h' : k ≠ k' := fun hh => h hh.symm
  induction l with
  | nil => simp [insertAL, lookupAL, h']
  | cons p rest ih =>
    obtain ⟨k₀, v₀⟩ := p
    by_cases h₀ : k₀ = k
    · subst h₀
      simp [insertAL, lookupAL, h']
    · by_cases h₁ : k₀ = k' <;> simp [insertAL, lookupAL, h₀, h₁, h, h', ih]

theorem lookupAL_eraseAL_ne (l : List (String × α)) (k k' : String)
    (h : k' ≠ k) : lookupAL (eraseAL l k) k' = lookupAL l k' := by
  have h' : k ≠ k' := fun hh => h hh.symm
  induction l with
  | nil => simp [eraseAL]
  | cons p rest ih =>
    obtain ⟨k₀, v₀⟩ := p
    by_cases h₀ : k₀ = k
    · subst h₀
      simp [eraseAL, lookupAL, h']
    · by_cases h₁ : k₀ = k' <;> simp [eraseAL, lookupAL, h₀, h₁, h, h', ih]

theorem lookupAL_eraseAL_none (l : List (String × α)) (k k' : String)
    (h : lookupAL l k' = none) : lookupAL (eraseAL l k) k' = none := by
  induction l with
  | nil => simp [eraseAL]
  | cons p rest ih =>
    obtain ⟨k₀, v₀⟩ := p
    by_cases h₀ : k₀ = k'
    · rw [lookupAL, if_pos h₀] at h; cases h
    · rw [lookupAL, if_neg h₀] at h
      by_cases h₁ : k₀ = k
      · rw [eraseAL, if_pos h₁]; exact h
      · rw [eraseAL, if_neg h₁, lookupAL, if_neg h₀]; exact ih h

theorem lookupAL_none_of_not_mem_keys (l : List (String × α)) (k : String)
    (h : k ∉ l.map (·.1)) : lookupAL l k = none := by
  induction l with
  | nil => rfl
  | cons p rest ih =>
    obtain ⟨k₀, v₀⟩ := p
    rw [List.map_cons, List.mem_cons] at h
    push_neg at h
    have hk : k₀ ≠ k := fun hh => h.1 hh.symm
    simp [lookupAL, hk, ih h.2]

theorem lookupAL_eraseAL_self (l : List (String × α)) (k : String)
    (h : (keysAL l).Nodup) : lookupAL (eraseAL l k) k = none := by
  induction l with
  | nil => simp [eraseAL]
  | cons p rest ih =>
    obtain ⟨k₀, v₀⟩ := p
    rw [keysAL, List.map_cons, List.nodup_cons] at h
    by_cases h₀ : k₀ = k
    · subst h₀
      simp only [eraseAL, if_pos rfl]
      exact lookupAL_none_of_not_mem_keys rest k₀ h.1
    · simp [eraseAL, lookupAL, h₀]
      exact ih h.2

theorem lookupAL_mem {l : List (String × α)} {k : String} {v : α}
    (h : lookupAL l k = some v) : (k, v) ∈ l := by
  induction l with
  | nil => simp [lookupAL] at h
  | cons p rest ih =>
    obtain ⟨k₀, v₀⟩ := p
    by_cases h₀ : k₀ = k
    · subst h₀
      simp [lookupAL] at h
      simp [h]
    · simp [lookupAL, h₀] at h
      exact List.mem_cons_of_mem _ (ih h)

theorem lookupAL_of_mem {l : List (String × α)} {k : String} {v : α}
    (hmem : (k, v) ∈ l) (hnd : (keysAL l).Nodup) : lookupAL l k = some v := by
  induction l with
  | nil => simp at hmem
  | cons p rest ih =>
    obtain ⟨k₀, v₀⟩ := p
    rw [keysAL, List.map_cons, List.nodup_cons] at hnd
    rcases List.mem_cons.mp hmem with h | h
    · rw [Prod.mk.injEq] at h
      obtain ⟨hk, hv⟩ := h
      subst hk; subst hv
      simp [lookupAL]
    · have hk : k₀ ≠ k := by
        intro hh; subst hh
        exact hnd.1 (List.mem_map.mpr ⟨(k₀, v), h, rfl⟩)
      rw [lookupAL, if_neg hk]
      exact ih h hnd.2

theorem mem_keys_insertAL (l : List (String × α)) (k k' : String) (v : α) :
    k' ∈ keysAL (insertAL l k v) ↔ k' ∈ keysAL l ∨ k' = k := by
  induction l with
  | nil => simp [insertAL, keysAL]
  | cons p rest ih =>
    obtain ⟨k₀, v₀⟩ := p
    by_cases h₀ : k₀ = k
    · subst h₀
      rw [insertAL, if_pos rfl]
      simp only [keysAL, List.map_cons, List.mem_cons]
      tauto
    · rw [insertAL, if_neg h₀]
      simp only [keysAL, List.map_cons, List.mem_cons] at ih ⊢
      tauto

theorem nodup_keys_insertAL (l : List (String × α)) (k : String) (v : α)
    (h : (keysAL l).Nodup) : (keysAL (insertAL l k v)).Nodup := by
  induction l with
  | nil => simp [insertAL, keysAL]
  | cons p rest ih =>
    obtain ⟨k₀, v₀⟩ := p
    rw [keysAL, List.map_cons, List.nodup_cons] at h
    by_cases h₀ : k₀ = k
    · subst h₀
      rw [insertAL, if_pos rfl, keysAL, List.map_cons, List.nodup_cons]
      exact ⟨h.1, h.2⟩
    · rw [insertAL, if_neg h₀, keysAL, List.map_cons, List.nodup_cons]
      refine ⟨?_, ih h.2⟩
      intro hmem
      rcases (mem_keys_insertAL rest k k₀ v).mp hmem with h' | h'
      · exact h.1 h'
      · exact h₀ h'

theorem keysAL_eraseAL_sublist (l : List (String × α)) (k : String) :
    (keysAL (eraseAL l k)).Sublist (keysAL l) := by
  induction l with
  | nil => simp [eraseAL]
  | cons p rest ih =>
    obtain ⟨k₀, v₀⟩ := p
    by_cases h₀ : k₀ = k
    · rw [eraseAL, if_pos h₀]
      simp only [keysAL, List.map_cons]
      exact List.sublist_cons_of_sublist _ (List.Sublist.refl _)
    · rw [eraseAL, if_neg h₀]
      simp only [keysAL, List.map_cons]
      exact List.Sublist.cons₂ _ ih

theorem nodup_keys_eraseAL (l : List (String × α)) (k : String)
    (h : (keysAL l).Nodup) : (keysAL (eraseAL l k)).Nodup :=
  h.sublist (keysAL_eraseAL_sublist l k)

theorem insertAL_fresh (l : List (String × α)) (k : String) (v : α)
    (h : lookupAL l k = none) : insertAL l k v = l ++ [(k, v)] := by
  induction l with
  | nil => rfl
  | cons p rest ih =>
    obtain ⟨k₀, v₀⟩ := p
    by_cases h₀ : k₀ = k
    · rw [lookupAL, if_pos h₀] at h; cases h
    · rw [lookupAL, if_neg h₀] at h
      rw [insertAL, if_neg h₀, ih h, List.cons_append]

theorem eraseAL_append_left (l t : List (String × α)) (k : String)
    (h : (lookupAL l k).isSome = true) : eraseAL (l ++ t) k = eraseAL l k ++ t := by
  induction l with
  | nil => rw [lookupAL] at h; cases h
  | cons p rest ih =>
    obtain ⟨k₀, v₀⟩ := p
    by_cases h₀ : k₀ = k
    · rw [List.cons_append, eraseAL, if_pos h₀, eraseAL, if_pos h₀]
    · rw [lookupAL, if_neg h₀] at h
      rw [List.cons_append, eraseAL, if_neg h₀, eraseAL, if_neg h₀, List.cons_append, ih h]

theorem eraseAL_sublist (l : List (String × α)) (k : String) :
    (eraseAL l k).Sublist l := by
  induction l with
  | nil => simp [eraseAL]
  | cons p rest ih =>
    obtain ⟨k₀, v₀⟩ := p
    by_cases h₀ : k₀ = k
    · rw [eraseAL, if_pos h₀]
      exact List.sublist_cons_of_sublist _ (List.Sublist.refl _)
    · rw [eraseAL, if_neg h₀]
      exact List.Sublist.cons₂ _ ih

end ALLemmas

/-! ## Lemmas about the lexicographic code-point order -/

theorem lexLt_irrefl (l : List Char) : lexLt l l = false := by
  induction l with
  | nil => rfl
  | cons a as ih => simp [lexLt, ih]

theorem lexLt_trans {a b c : List Char} (h₁ : lexLt a b = true)
    (h₂ : lexLt b c = true) : lexLt a c = true := by
  induction a generalizing b c with
  | nil =>
    cases b with
    | nil => simp [lexLt] at h₁
    | cons y ys =>
      cases c with
      | nil => simp [lexLt] at h₂
      | cons z zs => simp [lexLt]
  | cons x xs ih =>
    cases b with
    | nil => simp [lexLt] at h₁
    | cons y ys =>
      cases c with
      | nil => simp [lexLt] at h₂
      | cons z zs =>
        rw [lexLt] at h₁ h₂ ⊢
        by_cases hxy : x.toNat < y.toNat
        · by_cases hyz : y.toNat < z.toNat
          · have : x.toNat < z.toNat := by omega
            simp [this]
          · rw [if_neg hyz] at h₂
            by_cases hzy : z.toNat < y.toNat
            · simp [hzy] at h₂
            · have : x.toNat < z.toNat := by omega
              simp [this]
        · rw [if_neg hxy] at h₁
          by_cases hyx : y.toNat < x.toNat
          · simp [hyx] at h₁
          · by_cases hyz : y.toNat < z.toNat
            · have : x.toNat < z.toNat := by omega
              simp [this]
            · rw [if_neg hyz] at h₂
              by_cases hzy : z.toNat < y.toNat
              · simp [hzy] at h₂
              · have h₁' : lexLt xs ys = true := by simpa [hxy, hyx] using h₁
                have h₂' : lexLt ys zs = true := by simpa [hyz, hzy] using h₂
                have hxz : ¬ x.toNat < z.toNat := by omega
                have hzx : ¬ z.toNat < x.toNat := by omega
                simp [hxz, hzx, ih h₁' h₂']

theorem lexLt_asymm {a b : List Char} (h : lexLt a b = true) : lexLt b a = false := by
  by_contra hc
  have hba : lexLt b a = true := by
    cases hh : lexLt b a with
    | true => rfl
    | false => exact absurd hh hc
  have := lexLt_trans h hba
  rw [lexLt_irrefl] at this
  cases this

theorem lexLt_false_trans {a b c : List Char} (h₁ : lexLt a b = false)
    (h₂ : lexLt b c = false) : lexLt a c = false := by
  by_contra hc
  have hac : lexLt a c = true := by
    cases hh : lexLt a c with
    | true => rfl
    | false => exact absurd hh hc
  -- totalish: from ¬(a < b) and ¬(b < c) derive a contradiction with a < c
  induction a generalizing b c with
  | nil =>
    cases c with
    | nil => simp [lexLt] at hac
    | cons z zs =>
      cases b with
      | nil => simp [lexLt] at h₂
      | cons y ys => simp [lexLt] at h₁
  | cons x xs ih =>
    cases c with
    | nil => simp [lexLt] at hac
    | cons z zs =>
      cases b with
      | nil => simp [lexLt] at h₂
      | cons y ys =>
        rw [lexLt] at h₁ h₂ hac
        by_cases hxy : x.toNat < y.toNat
        · simp [hxy] at h₁
        · by_cases hyz : y.toNat < z.toNat
          · simp [hyz] at h₂
          · by_cases hxz : x.toNat < z.toNat
            · rw [if_pos hxz] at hac
              by_cases hyx : y.toNat < x.toNat
              · by_cases hzy : z.toNat < y.toNat
                · omega
                · simp [hyz, hzy] at h₂
                  omega
              · omega
            · rw [if_neg hxz] at hac
              by_cases hzx : z.toNat < x.toNat
              · simp [hzx] at hac
              · rw [if_neg hzx] at hac
                by_cases hyx : y.toNat < x.toNat
                · omega
                · by_cases hzy : z.toNat < y.toNat
                  · omega
                  · have h₁' : lexLt xs ys = false := by simpa [hxy, hyx] using h₁
                    have h₂' : lexLt ys zs = false := by simpa [hyz, hzy] using h₂
                    exact ih h₁' h₂' (fun hh => by rw [hh] at hac; cases hac) hac

theorem strLtB_irrefl (s : String) : strLtB s s = false := lexLt_irrefl s.data

theorem strLtB_false_trans {a b c : String} (h₁ : strLtB a b = false)
    (h₂ : strLtB b c = false) : strLtB a c = false := lexLt_false_trans h₁ h₂

theorem strLtB_asymm {a b : String} (h : strLtB a b = true) : strLtB b a = false :=
  lexLt_asymm h

theorem strLtB_total (a b : String) : strLtB a b = false ∨ strLtB b a = false := by
  cases hh : strLtB a b with
  | false => exact Or.inl rfl
  | true => exact Or.inr (strLtB_asymm hh)

instance : IsTotal (String × RegistryEntry) byDateDesc :=
  ⟨fun a b => strLtB_total a.2.training_date b.2.training_date⟩

instance : IsTrans (String × RegistryEntry) byDateDesc :=
  ⟨fun _ _ _ h₁ h₂ => strLtB_false_trans h₁ h₂⟩

/-- `maxByDate` returns an element of the list whose key no element strictly
exceeds. -/
theorem maxByDate_spec (ps : List (String × RegistryEntry)) (p : String × RegistryEntry) :
    maxByDate p ps ∈ p :: ps ∧
    ∀ q ∈ p :: ps, strLtB (maxByDate p ps).2.training_date q.2.training_date = false := by
  induction ps generalizing p with
  | nil =>
    refine ⟨by simp [maxByDate], ?_⟩
    intro q hq
    rw [List.mem_singleton] at hq
    subst hq
    simpa [maxByDate] using strLtB_irrefl _
  | cons r rs ih =>
    have hstep : maxByDate p (r :: rs)
        = maxByDate (if strLtB p.2.training_date r.2.training_date then r else p) rs := rfl
    by_cases hpr : strLtB p.2.training_date r.2.training_date = true
    · obtain ⟨ihmem, ihmax⟩ := ih r
      rw [if_pos hpr] at hstep
      rw [hstep]
      constructor
      · rcases List.mem_cons.mp ihmem with h | h
        · rw [h]; simp
        · exact List.mem_cons_of_mem _ (List.mem_cons_of_mem _ h)
      · intro q hq
        rcases List.mem_cons.mp hq with h | h
        · -- q = p : the max dominates r and p < r
          subst h
          have hmr := ihmax r (by simp)
          by_contra hc
          rw [Bool.not_eq_false] at hc
          have := lexLt_trans hc hpr
          rw [show lexLt (maxByDate r rs).2.training_date.data r.2.training_date.data
                = strLtB (maxByDate r rs).2.training_date r.2.training_date from rfl] at this
          rw [this] at hmr
          cases hmr
        · exact ihmax q h
    · obtain ⟨ihmem, ihmax⟩ := ih p
      rw [Bool.not_eq_true] at hpr
      rw [if_neg (by rw [hpr]; exact Bool.false_ne_true)] at hstep
      rw [hstep]
      constructor
      · rcases List.mem_cons.mp ihmem with h | h
        · rw [h]; simp
        · exact List.mem_cons_of_mem _ (List.mem_cons_of_mem _ h)
      · intro q hq
        rcases List.mem_cons.mp hq with h | h
        · subst h
          exact ihmax q (by simp)
        · rcases List.mem_cons.mp h with h' | h'
          · -- q = r : max ≥ p and p ≥ r
            subst h'
            exact strLtB_false_trans (ihmax p (by simp)) hpr
          · exact ihmax q (List.mem_cons_of_mem _ h')

/-! ## Claim C2: latest-version resolution -/

/-- **C2.** `load_latest_model` considers only entries with `active = true`
(missing key defaulting to true), fails with NotFound when the name is
unknown or no active entry remains — even if inactive entries still exist in
the registry — and otherwise resolves to an active entry whose
`training_date` no active entry exceeds under lexicographic code-point
comparison, then loads exactly that entry. -/
theorem c2_load_latest_resolution (st : PMState) (model_name : String) :
    ((lookupAL st.registry model_name = none ∨
        (∃ models, lookupAL st.registry model_name = some models ∧ activeOf models = [])) →
      load_latest_model st model_name = (.error .notFound, st))
    ∧ (∀ models latest_id, lookupAL st.registry model_name = some models →
        resolve_latest st.registry model_name = .ok latest_id →
        (∃ e, (latest_id, e) ∈ activeOf models ∧
            ∀ q ∈ activeOf models, strLtB e.training_date q.2.training_date = false) ∧
          load_latest_model st model_name = load_model st latest_id) := by
  constructor
  · rintro (h | ⟨models, hm, hact⟩)
    · simp [load_latest_model, resolve_latest, h]
    · simp [load_latest_model, resolve_latest, hm, hact]
  · intro models latest_id hm hres
    have hres' : resolve_latest st.registry model_name = .ok latest_id := hres
    simp only [resolve_latest, hm] at hres
    split at hres
    · exact absurd hres (by simp)
    next p ps hact =>
      rw [Except.ok.injEq] at hres
      constructor
      · obtain ⟨hmem, hmax⟩ := maxByDate_spec ps p
        refine ⟨(maxByDate p ps).2, ?_, ?_⟩
        · rw [← hres, hact]
          exact hmem
        · intro q hq
          rw [hact] at hq
          exact hmax q hq
      · rw [load_latest_model, hres']

/-- Witness for C2: on the spec's three-dates example the March entry is
resolved (and loaded); on an all-inactive registry the lookup fails with
NotFound although an entry exists. -/
theorem c2_load_latest_resolution_witness :
    resolve_latest marchRegistry "m" = .ok "mar" ∧
    ((∃ e, ("mar", e) ∈ activeOf (marchRegistry.head!.2) ∧
        ∀ q ∈ activeOf (marchRegistry.head!.2),
          strLtB e.training_date q.2.training_date = false) ∧
      load_latest_model (pmOf marchRegistry) "m" = load_model (pmOf marchRegistry) "mar") ∧
    load_latest_model (pmOf inactiveRegistry) "m" = (.error .notFound, pmOf inactiveRegistry) := by
  refine ⟨by decide, ?_, ?_⟩
  · exact (c2_load_latest_resolution (pmOf marchRegistry) "m").2
      (marchRegistry.head!.2) "mar" rfl (by decide)
  · exact (c2_load_latest_resolution (pmOf inactiveRegistry) "m").1
      (Or.inr ⟨inactiveRegistry.head!.2, rfl, by decide⟩)

/-! ## Claim C10: a registry entry without the `active` key is active -/

/-- **C10.** An entry lacking the `active` key is treated as active: it
belongs to the shared active-candidate filter `activeOf` used by both
`load_latest_model` and `cleanup_old_models`, it appears among cleanup's
date-sorted candidates, and its presence prevents `resolve_latest` from
failing with NotFound. -/
theorem c10_missing_active_flag_defaults_true
    (models : List (String × RegistryEntry)) (id : String) (e : RegistryEntry)
    (hmem : (id, e) ∈ models) (hnone : e.active = none) :
    (id, e) ∈ activeOf models ∧
    (id, e) ∈ sortByDateDesc (activeOf models) ∧
    (∀ (reg : Registry) (name : String), lookupAL reg name = some models →
      ∃ latest_id, resolve_latest reg name = .ok latest_id) := by
  have hact : (id, e) ∈ activeOf models :=
    List.mem_filter.mpr ⟨hmem, by simp [hnone]⟩
  refine ⟨hact, ?_, ?_⟩
  · exact ((List.perm_insertionSort byDateDesc (activeOf models)).mem_iff).mpr hact
  · intro reg name hlk
    rcases hactl : activeOf models with _ | ⟨p, ps⟩
    · rw [hactl] at hact; cases hact
    · exact ⟨(maxByDate p ps).1, by simp only [resolve_latest, hlk, hactl]⟩

/-- Witness for C10 at a one-entry registry whose entry lacks the `active`
key. -/
theorem c10_missing_active_flag_defaults_true_witness :
    (("x", { entryAt "2024-01-01" with active := none })
        ∈ activeOf [("x", { entryAt "2024-01-01" with active := none })] ∧
      ("x", { entryAt "2024-01-01" with active := none })
        ∈ sortByDateDesc (activeOf [("x", { entryAt "2024-01-01" with active := none })]) ∧
      (∀ (reg : Registry) (name : String),
        lookupAL reg name = some [("x", { entryAt "2024-01-01" with active := none })] →
        ∃ latest_id, resolve_latest reg name = .ok latest_id)) :=
  c10_missing_active_flag_defaults_true _ "x" _ (by decide) rfl

/-! ## Claim C7: the error taxonomy of `load_model` -/

/-- **C7.** `load_model` fails with NotFound exactly when the id is absent
from the registry; it fails with the distinct error MissingArtifact when a
registry entry exists but the metadata document or the artifact file is
absent from durable storage; and it succeeds exactly when registry entry,
metadata document and artifact file all exist. -/
theorem c7_load_error_taxonomy (st : PMState) (model_id : String) :
    (findModel st.registry model_id = none →
      (load_model st model_id).1 = .error .notFound)
    ∧ (∀ nm info, findModel st.registry model_id = some (nm, info) →
        (lookupAL st.disk.metaDocs info.metadata_path = none ∨
          lookupAL st.disk.artifacts info.file_path = none) →
        (load_model st model_id).1 = .error .missingArtifact)
    ∧ (isOkE (load_model st model_id).1 = true ↔
        ∃ nm info, findModel st.registry model_id = some (nm, info) ∧
          (lookupAL st.disk.metaDocs info.metadata_path).isSome = true ∧
          (lookupAL st.disk.artifacts info.file_path).isSome = true) := by
  refine ⟨?_, ?_, ?_⟩
  · intro h
    simp [load_model, h]
  · rintro nm info hfind (h | h)
    · simp [load_model, hfind, h]
    · rcases hmd : lookupAL st.disk.metaDocs info.metadata_path with _ | md
      · simp [load_model, hfind, hmd]
      · simp [load_model, hfind, hmd, h]
  · constructor
    · intro h
      rcases hfind : findModel st.registry model_id with _ | ⟨nm, info⟩
      · simp [load_model, hfind, isOkE] at h
      · rcases hmd : lookupAL st.disk.metaDocs info.metadata_path with _ | md
        · simp [load_model, hfind, hmd, isOkE] at h
        · rcases hart : lookupAL st.disk.artifacts info.file_path with _ | m
          · simp [load_model, hfind, hmd, hart, isOkE] at h
          · exact ⟨nm, info, rfl, by simp [hmd], by simp [hart]⟩
    · rintro ⟨nm, info, hfind, hmd, hart⟩
      rcases hmd' : lookupAL st.disk.metaDocs info.metadata_path with _ | md
      · rw [hmd'] at hmd; cases hmd
      · rcases hart' : lookupAL st.disk.artifacts info.file_path with _ | m
        · rw [hart'] at hart; cases hart
        · simp [load_model, hfind, hmd', hart', isOkE]

/-- Witness for C7: a missing id yields NotFound; an entry whose files are
missing yields MissingArtifact; a fully present entry loads. -/
theorem c7_load_error_taxonomy_witness :
    (load_model (pmOf []) "x").1 = .error .notFound ∧
    (load_model (pmOf marchRegistry) "mar").1 = .error .missingArtifact ∧
    isOkE (load_model
      { pmOf marchRegistry with
        disk := { registryDoc := marchRegistry
                  metaDocs := [("b", { model_id := "mar", model_name := "m"
                                       model_type := "custom", version := "1"
                                       training_date := "2024-03-01T00:00:00Z"
                                       performance_metrics := [], parameters := []
                                       data_hash := "", file_path := "a", file_size := 0
                                       gpu_compatible := false, framework_version := ""
                                       python_version := "", dependencies := [] })]
                  artifacts := [("a", scalarModel)], reads := 0 } } "mar").1 = true := by
  refine ⟨(c7_load_error_taxonomy (pmOf []) "x").1 rfl,
    (c7_load_error_taxonomy (pmOf marchRegistry) "mar").2.1 "m"
      (entryAt "2024-03-01T00:00:00Z") (by decide) (Or.inl rfl), ?_⟩
  exact ((c7_load_error_taxonomy _ "mar").2.2).mpr
    ⟨"m", entryAt "2024-03-01T00:00:00Z", by decide, by decide, rfl⟩

/-! ## Claim C1: behaviour on a failing registry write -/

/-- **C1 (counterexample).** A failed registry write during `save_model`
propagates the error, but the in-memory mutation is *not* rolled back: the
in-memory registry differs from the pre-save registry and from the durable
registry document, refuting "rolled back in memory (or retried until
durable)". -/
theorem c1_write_failure_counterexample :
    errOf (save_model envNoWrite (pmOf []) scalarModel "m" "1" [] none none none).1
        = some .writeFailed ∧
    (save_model envNoWrite (pmOf []) scalarModel "m" "1" [] none none none).2.registry
        ≠ (pmOf []).registry ∧
    (save_model envNoWrite (pmOf []) scalarModel "m" "1" [] none none none).2.registry
        ≠ (save_model envNoWrite (pmOf []) scalarModel "m" "1" [] none none none).2.disk.registryDoc := by
  refine ⟨by decide, by decide, by decide⟩

/-- **C1 (amended).** When the registry-document write fails, `save_model`,
`delete_model` and `restore_model` propagate the error to the caller, but the
in-memory mutation that produced the new state is retained (not rolled back)
while the durable registry document is left unchanged, so the in-memory
registry and the durable document diverge until a later successful write. -/
theorem c1_write_failure_propagates_without_rollback (env : Env) (st : PMState)
    (hfail : env.writeOk st.writeCtr = false) :
    (∀ model model_name version metrics tdata params mtype?,
      errOf (save_model env st model model_name version metrics tdata params mtype?).1
          = some .writeFailed ∧
      (save_model env st model model_name version metrics tdata params mtype?).2.disk.registryDoc
          = st.disk.registryDoc ∧
      ∃ e, (save_model env st model model_name version metrics tdata params mtype?).2.registry
          = registryInsert st.registry model_name
              (generate_model_id model_name version (env.stamp st.timeCtr)) e ∧
            e.active = some true)
    ∧ (∀ model_id nm info, findModel st.registry model_id = some (nm, info) →
        errOf (delete_model env st model_id true).1 = some .writeFailed ∧
        (delete_model env st model_id true).2.disk.registryDoc = st.disk.registryDoc ∧
        (delete_model env st model_id true).2.registry
          = registryErase st.registry nm model_id)
    ∧ (∀ backup_loc mpath md rest,
        st.disk.metaDocs.filter
            (fun p => directChild backup_loc p.1 && endsWithStr p.1 "_metadata.json")
          = (mpath, md) :: rest →
        errOf (restore_model env st backup_loc).1 = some .writeFailed ∧
        (restore_model env st backup_loc).2.disk.registryDoc = st.disk.registryDoc ∧
        ∃ e, (restore_model env st backup_loc).2.registry
          = registryInsert st.registry md.model_name
              (generate_model_id md.model_name (md.version ++ "_restored")
                (env.stamp st.timeCtr)) e ∧
            e.active = some true) := by
  refine ⟨?_, ?_, ?_⟩
  · intro model model_name version metrics tdata params mtype?
    refine ⟨?_, ?_,
      ⟨{ version := version
         training_date := env.iso (st.timeCtr + 1)
         performance_metrics := metrics
         file_path := st.base_path ++ "/" ++ generate_model_id model_name version (env.stamp st.timeCtr)
           ++ "/" ++ generate_model_id model_name version (env.stamp st.timeCtr)
           ++ (if mtype?.getD (detect_model_type model) = "pytorch" then ".pth" else ".pkl")
         metadata_path := st.base_path ++ "/" ++ generate_model_id model_name version (env.stamp st.timeCtr)
           ++ "/" ++ generate_model_id model_name version (env.stamp st.timeCtr) ++ "_metadata.json"
         active := some true }, ?_, rfl⟩⟩ <;>
      simp [save_model, save_registry, hfail, errOf]
  · intro model_id nm info hfind
    rcases hart : lookupAL st.disk.artifacts info.file_path with _ | m <;>
      rcases hmd : lookupAL st.disk.metaDocs info.metadata_path with _ | md <;>
      refine ⟨?_, ?_, ?_⟩ <;>
      simp [delete_model, backup_model, save_registry, hfind, hart, hmd, hfail, errOf]
  · intro backup_loc mpath md rest hglob
    have hmem : (mpath, md) ∈ st.disk.metaDocs := by
      have : (mpath, md) ∈ st.disk.metaDocs.filter
          (fun p => directChild backup_loc p.1 && endsWithStr p.1 "_metadata.json") := by
        rw [hglob]; simp
      exact List.mem_filter.mp this |>.1
    have hpred : (directChild backup_loc mpath && endsWithStr mpath "_metadata.json") = true := by
      have : (mpath, md) ∈ st.disk.metaDocs.filter
          (fun p => directChild backup_loc p.1 && endsWithStr p.1 "_metadata.json") := by
        rw [hglob]; simp
      exact List.mem_filter.mp this |>.2
    have hpre : ((backup_loc ++ "/").data).isPrefixOf mpath.data = true := by
      have hdc := (Bool.and_eq_true _ _ |>.mp hpred).1
      rw [directChild] at hdc
      exact (Bool.and_eq_true _ _ |>.mp hdc).1
    have hexists : (st.disk.metaDocs.any
        (fun p => ((backup_loc ++ "/").data).isPrefixOf p.1.data)) = true :=
      List.any_eq_true.mpr ⟨(mpath, md), hmem, hpre⟩
    have hexists2 : (st.disk.metaDocs.any
        (fun p => (backup_loc.data ++ ['/']).isPrefixOf p.1.data)) = true := by
      simpa using hexists
    refine ⟨?_, ?_,
      ⟨{ version := md.version ++ "_restored"
         training_date := md.training_date
         performance_metrics := md.performance_metrics
         file_path := st.base_path ++ "/"
           ++ generate_model_id md.model_name (md.version ++ "_restored") (env.stamp st.timeCtr)
           ++ "/" ++ generate_model_id md.model_name (md.version ++ "_restored") (env.stamp st.timeCtr)
           ++ "." ++ extAfterDot md.file_path
         metadata_path := st.base_path ++ "/"
           ++ generate_model_id md.model_name (md.version ++ "_restored") (env.stamp st.timeCtr)
           ++ "/" ++ generate_model_id md.model_name (md.version ++ "_restored") (env.stamp st.timeCtr)
           ++ "_metadata.json"
         active := some true }, ?_, rfl⟩⟩ <;>
      simp [restore_model, save_registry, hexists2, hglob, hfail, errOf]

/-- Witness for the amended C1: concrete failing-write save, delete and
restore, each propagating `writeFailed` with the mutation retained in memory
and the durable document untouched. -/
theorem c1_write_failure_propagates_without_rollback_witness :
    (errOf (save_model envNoWrite (pmOf marchRegistry) scalarModel "m" "2" [] none none none).1
        = some .writeFailed ∧
      (save_model envNoWrite (pmOf marchRegistry) scalarModel "m" "2" [] none none none).2.disk.registryDoc
        = (pmOf marchRegistry).disk.registryDoc ∧
      ∃ e, (save_model envNoWrite (pmOf marchRegistry) scalarModel "m" "2" [] none none none).2.registry
        = registryInsert (pmOf marchRegistry).registry "m"
            (generate_model_id "m" "2" (envNoWrite.stamp 0)) e ∧ e.active = some true) ∧
    (errOf (delete_model envNoWrite (pmOf marchRegistry) "mar" true).1 = some .writeFailed ∧
      (delete_model envNoWrite (pmOf marchRegistry) "mar" true).2.disk.registryDoc
        = (pmOf marchRegistry).disk.registryDoc ∧
      (delete_model envNoWrite (pmOf marchRegistry) "mar" true).2.registry
        = registryErase (pmOf marchRegistry).registry "m" "mar") := by
  have h := c1_write_failure_propagates_without_rollback envNoWrite (pmOf marchRegistry) rfl
  exact ⟨h.1 scalarModel "m" "2" [] none none none,
    h.2.1 "mar" "m" (entryAt "2024-03-01T00:00:00Z") (by decide)⟩

/-! ## Claim C3: shape of the `prediction` field -/

mutual

theorem noArraysB_toNested : ∀ v, noArraysB (toNested v) = true
  | .int _ => rfl
  | .str _ => rfl
  | .list xs => noArraysListB_toNestedList xs
  | .ndarray xs => noArraysListB_toNestedList xs
  | .tensor xs => noArraysListB_toNestedList xs

theorem noArraysListB_toNestedList : ∀ xs, noArraysListB (toNestedList xs) = true
  | [] => rfl
  | x :: xs => by
    rw [toNestedList, noArraysListB, noArraysB_toNested x, noArraysListB_toNestedList xs]
    rfl

end

/-- **C3 (counterexample).** A cached custom model whose raw prediction is
the bare numeric scalar `7` yields a result whose `prediction` field is that
bare scalar, not a one-element sequence: the Inference Cache's `predict`
does not wrap scalars. -/
theorem c3_scalar_prediction_counterexample :
    ((predict plScalar (pmOf []) "cid" (.int 0) "t").1.map (fun r => r.prediction))
        = .ok (.int 7) ∧
    ((predict plScalar (pmOf []) "cid" (.int 0) "t").1.map (fun r => isSequence r.prediction))
        = .ok false :=
  ⟨rfl, rfl⟩

/-- **C3 (amended).** The `prediction` field of a successful pipeline
`predict` is the raw prediction with `tolist` applied when the raw value
exposes it: array-like raw predictions become plain nested sequences holding
no live array or tensor reference, while a raw value without `tolist` — in
particular a bare numeric scalar — is returned unwrapped.  The wrapping of
scalars into one-element sequences happens only in the HTTP layer
(`perform_inference`'s `final_prediction_list`, which always yields a
sequence). -/
theorem c3_prediction_is_tolist_of_raw (pl : Pipeline) (st : PMState) (mid : String)
    (input : PyVal) (iso : String) (model : OpaqueModel) (metadata : ModelMetadata)
    (hm : lookupAL pl.loaded_models mid = some model)
    (hmd : lookupAL pl.model_metadata mid = some metadata) :
    (∀ praw probs res, rawPrediction model metadata input = .ok (praw, probs) →
      (predict pl st mid input iso).1 = .ok res →
      res.prediction = (pyTolist praw).getD praw ∧
      (∀ xs, (praw = .ndarray xs ∨ praw = .tensor xs) →
        isSequence res.prediction = true ∧ noArraysB res.prediction = true) ∧
      (pyTolist praw = none → res.prediction = praw)) ∧
    (∀ v, isSequence (final_prediction_list v) = true) := by
  constructor
  · intro praw probs res hraw hres
    have hpred : res.prediction = (pyTolist praw).getD praw := by
      simp only [predict, hm, hmd, hraw] at hres
      split at hres
      · split at hres
        · split at hres
          · rw [Except.ok.injEq] at hres
            rw [← hres]
          · cases hres
        · rw [Except.ok.injEq] at hres
          rw [← hres]
      · rw [Except.ok.injEq] at hres
        rw [← hres]
    refine ⟨hpred, ?_, ?_⟩
    · rintro xs (h | h) <;>
      · subst h
        rw [hpred]
        exact ⟨rfl, noArraysListB_toNestedList xs⟩
    · intro hnone
      rw [hpred, hnone]
      rfl
  · intro v
    match v with
    | .int _ => rfl
    | .str _ => rfl
    | .list xs => rfl
    | .tensor xs => rfl
    | .ndarray xs =>
      rw [final_prediction_list]
      split <;> rfl

/-- Witness for the amended C3 at the cached scalar model: the raw
prediction `7` has no `tolist`, and the result carries it unwrapped. -/
theorem c3_prediction_is_tolist_of_raw_witness :
    ({ prediction := .int 7, model_id := "cid", model_name := "m", model_version := "1"
       timestamp := "t", probabilities := none } : PredictionResult).prediction
        = (pyTolist (.int 7)).getD (.int 7) ∧
    isSequence (final_prediction_list (.int 7)) = true := by
  have h := c3_prediction_is_tolist_of_raw plScalar (pmOf []) "cid" (.int 0) "t"
    scalarModel mdCustom rfl rfl
  exact ⟨(h.1 (.int 7) none _ rfl rfl).1, h.2 (.int 7)⟩

/-! ## Claims C8 and C9: cache behaviour -/

/-- `predict` never touches the persistence manager or its durable storage,
and never mutates the cache: both components pass through unchanged. -/
theorem predict_preserves_state (pl : Pipeline) (st : PMState) (model_id : String)
    (input : PyVal) (iso : String) :
    (predict pl st model_id input iso).2.1 = st ∧
    (predict pl st model_id input iso).2.2 = pl := by
  rcases h₁ : lookupAL pl.loaded_models model_id with _ | model
  · simp [predict, h₁]
  · rcases h₂ : lookupAL pl.model_metadata model_id with _ | metadata
    · simp [predict, h₁, h₂]
    · rcases h₃ : rawPrediction model metadata input with e | ⟨praw, probs⟩
      · simp [predict, h₁, h₂, h₃]
      · simp only [predict, h₁, h₂, h₃]
        repeat' split
        all_goals exact ⟨rfl, rfl⟩

/-- The cache after `load_model_for_inference`: unchanged on failure, both
dictionaries extended under the resolved id on success. -/
theorem load_mfi_pipeline_cases (st : PMState) (pl : Pipeline) (model_name : String)
    (model_id? : Option String) :
    (load_model_for_inference st pl model_name model_id?).2.2 = pl ∨
    ∃ mid model metadata,
      (load_model_for_inference st pl model_name model_id?).1 = .ok mid ∧
      (load_model_for_inference st pl model_name model_id?).2.2 =
        { loaded_models := insertAL pl.loaded_models mid model
          model_metadata := insertAL pl.model_metadata mid metadata } := by
  cases model_id? with
  | none =>
    rcases hl : load_latest_model st model_name with ⟨r, st'⟩
    cases r with
    | error e => left; simp [load_model_for_inference, hl]
    | ok pr =>
      obtain ⟨model, metadata⟩ := pr
      right
      exact ⟨metadata.model_id, model, metadata, by simp [load_model_for_inference, hl],
        by simp [load_model_for_inference, hl]⟩
  | some mid =>
    rcases hl : load_model st mid with ⟨r, st'⟩
    cases r with
    | error e => left; simp [load_model_for_inference, hl]
    | ok pr =>
      obtain ⟨model, metadata⟩ := pr
      right
      exact ⟨mid, model, metadata, by simp [load_model_for_inference, hl],
        by simp [load_model_for_inference, hl]⟩

/-- A successful `load_model_for_inference` extends both cache dictionaries
under the returned id. -/
theorem load_mfi_ok_pipeline (st : PMState) (pl : Pipeline) (model_name : String)
    (model_id? : Option String) (resolved_id : String)
    (hok : (load_model_for_inference st pl model_name model_id?).1 = .ok resolved_id) :
    ∃ model metadata,
      (load_model_for_inference st pl model_name model_id?).2.2 =
        { loaded_models := insertAL pl.loaded_models resolved_id model
          model_metadata := insertAL pl.model_metadata resolved_id metadata } := by
  cases model_id? with
  | none =>
    rcases hl : load_latest_model st model_name with ⟨r, st'⟩
    cases r with
    | error e =>
      simp only [load_model_for_inference, hl] at hok
      cases hok
    | ok pr =>
      obtain ⟨model, metadata⟩ := pr
      have hid : metadata.model_id = resolved_id := by
        simp only [load_model_for_inference, hl] at hok
        exact Except.ok.injEq _ _ |>.mp hok
      refine ⟨model, metadata, ?_⟩
      simp only [load_model_for_inference, hl]
      rw [hid]
  | some mid =>
    rcases hl : load_model st mid with ⟨r, st'⟩
    cases r with
    | error e =>
      simp only [load_model_for_inference, hl] at hok
      cases hok
    | ok pr =>
      obtain ⟨model, metadata⟩ := pr
      have hid : mid = resolved_id := by
        simp only [load_model_for_inference, hl] at hok
        exact Except.ok.injEq _ _ |>.mp hok
      refine ⟨model, metadata, ?_⟩
      simp only [load_model_for_inference, hl]
      rw [hid]

/-- **C8.** `predict` on an uncached id fails with NotLoaded and performs no
implicit load: persistence state and cache are returned unchanged.  After a
successful `load_model_for_inference`, the resolved id is cached, and every
subsequent `predict` reuses the cached object without consulting the
persistence manager: the persistence state (in particular the
storage-access counter) and the cache are left exactly as the prepare call
left them, for arbitrarily many repetitions. -/
theorem c8_predict_no_implicit_load (st : PMState) (pl : Pipeline) :
    (∀ model_id input iso, lookupAL pl.loaded_models model_id = none →
      predict pl st model_id input iso = (.error .notLoaded, st, pl))
    ∧ (∀ model_id input iso,
        (predict pl st model_id input iso).2.1 = st ∧
        (predict pl st model_id input iso).2.1.disk.reads = st.disk.reads ∧
        (predict pl st model_id input iso).2.2 = pl)
    ∧ (∀ model_name model_id? resolved_id,
        (load_model_for_inference st pl model_name model_id?).1 = .ok resolved_id →
        (lookupAL ((load_model_for_inference st pl model_name model_id?).2.2).loaded_models
            resolved_id).isSome = true ∧
        ∀ input iso,
          (predict (load_model_for_inference st pl model_name model_id?).2.2
              (load_model_for_inference st pl model_name model_id?).2.1
              resolved_id input iso).2.1
            = (load_model_for_inference st pl model_name model_id?).2.1 ∧
          (predict (load_model_for_inference st pl model_name model_id?).2.2
              (load_model_for_inference st pl model_name model_id?).2.1
              resolved_id input iso).2.2
            = (load_model_for_inference st pl model_name model_id?).2.2) := by
  refine ⟨?_, ?_, ?_⟩
  · intro model_id input iso h
    simp [predict, h]
  · intro model_id input iso
    obtain ⟨h₁, h₂⟩ := predict_preserves_state pl st model_id input iso
    exact ⟨h₁, by rw [h₁], h₂⟩
  · intro model_name model_id? resolved_id hok
    obtain ⟨model, metadata, hpl⟩ :=
      load_mfi_ok_pipeline st pl model_name model_id? resolved_id hok
    refine ⟨?_, fun input iso => predict_preserves_state _ _ _ _ _⟩
    rw [hpl]
    simp [lookupAL_insertAL_self]

/-- Witness for C8: an empty cache rejects `predict` with NotLoaded, and a
prepared cache answers `predict` without touching the persistence state. -/
theorem c8_predict_no_implicit_load_witness :
    predict emptyPipeline (pmOf []) "cid" (.int 0) "t"
        = (.error .notLoaded, pmOf [], emptyPipeline) ∧
    (predict plScalar (pmOf []) "cid" (.int 0) "t").2.1 = pmOf [] ∧
    (predict plScalar (pmOf []) "cid" (.int 0) "t").2.1.disk.reads = (pmOf []).disk.reads ∧
    (predict plScalar (pmOf []) "cid" (.int 0) "t").2.2 = plScalar := by
  exact ⟨(c8_predict_no_implicit_load (pmOf []) emptyPipeline).1 "cid" (.int 0) "t" rfl,
    (c8_predict_no_implicit_load (pmOf []) plScalar).2.1 "cid" (.int 0) "t"⟩

/-- Every cache step preserves cache well-formedness. -/
theorem cacheWF_step (s : PMState × Pipeline) (op : CacheOp) (h : cacheWF s.2) :
    cacheWF (cacheStep s op).2 := by
  obtain ⟨hco, hnd₁, hnd₂⟩ := h
  cases op with
  | loadForInference model_name model_id? =>
    rcases load_mfi_pipeline_cases s.1 s.2 model_name model_id? with hsame | ⟨mid, model, metadata, _, hpl⟩
    · rw [cacheStep, hsame]
      exact ⟨hco, hnd₁, hnd₂⟩
    · rw [cacheStep, hpl]
      refine ⟨?_, nodup_keys_insertAL _ _ _ hnd₁, nodup_keys_insertAL _ _ _ hnd₂⟩
      intro k
      by_cases hk : k = mid
      · subst hk
        simp [lookupAL_insertAL_self]
      · rw [lookupAL_insertAL_ne _ _ _ _ hk, lookupAL_insertAL_ne _ _ _ _ hk]
        exact hco k
  | doPredict model_id input iso =>
    rw [cacheStep, (predict_preserves_state s.2 s.1 model_id input iso).2]
    exact ⟨hco, hnd₁, hnd₂⟩
  | unload model_id =>
    rw [cacheStep, unload_model]
    split
    · refine ⟨?_, nodup_keys_eraseAL _ _ hnd₁, nodup_keys_eraseAL _ _ hnd₂⟩
      intro k
      by_cases hk : k = model_id
      · subst hk
        rw [lookupAL_eraseAL_self _ _ hnd₁, lookupAL_eraseAL_self _ _ hnd₂]
        rfl
      · rw [lookupAL_eraseAL_ne _ _ _ hk, lookupAL_eraseAL_ne _ _ _ hk]
        exact hco k
    · exact ⟨hco, hnd₁, hnd₂⟩
  | clearAll =>
    rw [cacheStep, clear_cache]
    exact ⟨fun k => rfl, List.nodup_nil, List.nodup_nil⟩

/-- **C9.** Starting from the freshly constructed (empty) inference cache,
after any sequence of `load_model_for_inference`, `predict`, `unload_model`
and `clear_cache` operations the live-model dictionary and the metadata
dictionary are keyed by exactly the same model ids. -/
theorem c9_cache_mappings_co_indexed (st : PMState) (ops : List CacheOp) :
    coIndexed (runCacheOps st ops).2 := by
  have main : ∀ (ops : List CacheOp) (s : PMState × Pipeline), cacheWF s.2 →
      cacheWF (ops.foldl cacheStep s).2 := by
    intro ops
    induction ops with
    | nil => intro s h; exact h
    | cons op rest ih =>
      intro s h
      rw [List.foldl_cons]
      exact ih _ (cacheWF_step s op h)
  have h0 : cacheWF emptyPipeline :=
    ⟨fun k => rfl, List.nodup_nil, List.nodup_nil⟩
  exact (main ops (st, emptyPipeline) h0).1

/-! ## Claim C4: save/load round trip -/

/-- Inserting a fresh id into the registry makes it findable under exactly
the given name and entry. -/
theorem findModel_registryInsert_fresh (r : Registry) (name id : String) (e : RegistryEntry)
    (hfresh : findModel r id = none) :
    findModel (registryInsert r name id e) id = some (name, e) := by
  induction r with
  | nil => simp [registryInsert, findModel, lookupAL]
  | cons p rest ih =>
    obtain ⟨n, ms⟩ := p
    cases hlk : lookupAL ms id with
    | some info =>
      rw [findModel, hlk] at hfresh
      cases hfresh
    | none =>
      rw [findModel, hlk] at hfresh
      by_cases hn : n = name
      · subst hn
        rw [registryInsert, if_pos rfl, findModel, lookupAL_insertAL_self]
      · rw [registryInsert, if_neg hn, findModel, hlk]
        exact ih hfresh

/-- **C4.** Saving a model under a fresh id and immediately loading it by the
returned id succeeds and yields the saved model together with metadata whose
caller-supplied fields — name, version, metrics, parameters and (when given)
the type tag — equal exactly what was supplied at save time; `model_id`,
`file_path` and `file_size` are the derived values. -/
theorem c4_save_load_round_trip (env : Env) (st : PMState) (model : OpaqueModel)
    (model_name version : String) (metrics : List (String × Int))
    (tdata : Option String) (params : Option (List (String × String)))
    (mtype? : Option String)
    (hw : env.writeOk st.writeCtr = true)
    (hfresh : findModel st.registry
      (generate_model_id model_name version (env.stamp st.timeCtr)) = none) :
    (save_model env st model model_name version metrics tdata params mtype?).1
        = .ok (generate_model_id model_name version (env.stamp st.timeCtr)) ∧
    ∃ md, (load_model (save_model env st model model_name version metrics tdata params mtype?).2
        (generate_model_id model_name version (env.stamp st.timeCtr))).1 = .ok (model, md) ∧
      md.model_name = model_name ∧
      md.version = version ∧
      md.performance_metrics = metrics ∧
      md.parameters = params.getD [] ∧
      md.model_type = mtype?.getD (detect_model_type model) ∧
      md.model_id = generate_model_id model_name version (env.stamp st.timeCtr) := by
  constructor
  · simp [save_model, save_registry, hw]
  · refine ⟨{ model_id := generate_model_id model_name version (env.stamp st.timeCtr)
              model_name := model_name
              model_type := mtype?.getD (detect_model_type model)
              version := version
              training_date := env.iso (st.timeCtr + 1)
              performance_metrics := metrics
              parameters := params.getD []
              data_hash := match tdata with
                | some d => env.md5 d
                | none => ""
              file_path := st.base_path ++ "/"
                ++ generate_model_id model_name version (env.stamp st.timeCtr)
                ++ "/" ++ generate_model_id model_name version (env.stamp st.timeCtr)
                ++ (if mtype?.getD (detect_model_type model) = "pytorch" then ".pth" else ".pkl")
              file_size := env.sizeOfArtifact model
              gpu_compatible := if mtype?.getD (detect_model_type model) = "pytorch"
                then model.hasParameters && model.paramsCuda else false
              framework_version := (lookupAL env.frameworks (mtype?.getD (detect_model_type model))).getD ""
              python_version := (lookupAL env.frameworks "python").getD ""
              dependencies := env.frameworks },
      ?_, rfl, rfl, rfl, rfl, rfl, rfl⟩
    simp only [save_model, save_registry, hw, if_pos, load_model,
      findModel_registryInsert_fresh _ _ _ _ hfresh, lookupAL_insertAL_self]

/-! ## Registry-scan and erase lemmas -/

theorem findModel_mem {r : Registry} {id name : String} {e : RegistryEntry}
    (h : findModel r id = some (name, e)) :
    ∃ ms, (name, ms) ∈ r ∧ lookupAL ms id = some e := by
  induction r with
  | nil => cases h
  | cons p rest ih =>
    obtain ⟨n, ms⟩ := p
    cases hlk : lookupAL ms id with
    | some info =>
      rw [findModel, hlk] at h
      rw [Option.some.injEq, Prod.mk.injEq] at h
      exact ⟨ms, by simp [h.1], by rw [hlk, h.2]⟩
    | none =>
      rw [findModel, hlk] at h
      obtain ⟨ms', hmem, hlk'⟩ := ih h
      exact ⟨ms', List.mem_cons_of_mem _ hmem, hlk'⟩

theorem findModel_none_of_forall {r : Registry} {id : String}
    (h : ∀ p ∈ r, lookupAL p.2 id = none) : findModel r id = none := by
  induction r with
  | nil => rfl
  | cons p rest ih =>
    obtain ⟨n, ms⟩ := p
    rw [findModel, h (n, ms) (by simp)]
    exact ih (fun q hq => h q (List.mem_cons_of_mem _ hq))

theorem registryWF_tail {p : String × List (String × RegistryEntry)} {rest : Registry}
    (h : RegistryWF (p :: rest)) : RegistryWF rest := by
  obtain ⟨h₁, h₂⟩ := h
  rw [keysAL, List.map_cons, List.nodup_cons] at h₁
  rw [List.map_cons, List.flatten_cons] at h₂
  exact ⟨h₁.2, (List.nodup_append.mp h₂).2.1⟩

theorem registryWF_inner_nodup {r : Registry} {n : String}
    {ms : List (String × RegistryEntry)} (hwf : RegistryWF r) (hmem : (n, ms) ∈ r) :
    (keysAL ms).Nodup := by
  have := (List.nodup_flatten.mp hwf.2).1
  exact this (keysAL ms) (List.mem_map.mpr ⟨(n, ms), hmem, rfl⟩)

/-- Under registry well-formedness, an id bound in the head block is absent
from every later block. -/
theorem findModel_tail_none {n : String} {ms : List (String × RegistryEntry)}
    {rest : Registry} {id : String} {e : RegistryEntry}
    (hwf : RegistryWF ((n, ms) :: rest)) (hlk : lookupAL ms id = some e) :
    findModel rest id = none := by
  have hdisj := (List.nodup_flatten.mp hwf.2).2
  rw [List.map_cons] at hdisj
  refine findModel_none_of_forall (fun q hq => ?_)
  cases hq2 : lookupAL q.2 id with
  | none => rfl
  | some e' =>
    exfalso
    have h₁ : id ∈ keysAL ms := List.mem_map.mpr ⟨(id, e), lookupAL_mem hlk, rfl⟩
    have h₂ : id ∈ keysAL q.2 := List.mem_map.mpr ⟨(id, e'), lookupAL_mem hq2, rfl⟩
    exact List.rel_of_pairwise_cons hdisj (List.mem_map.mpr ⟨q, hq, rfl⟩) h₁ h₂

/-- Under registry well-formedness, an id bound in `name`'s block is found by
the scan exactly there. -/
theorem findModel_eq_of_lookup {r : Registry} {name id : String}
    {ms : List (String × RegistryEntry)} {e : RegistryEntry}
    (hwf : RegistryWF r) (hname : lookupAL r name = some ms)
    (hid : lookupAL ms id = some e) :
    findModel r id = some (name, e) := by
  induction r with
  | nil => cases hname
  | cons p rest ih =>
    obtain ⟨n, ms₀⟩ := p
    by_cases hn : n = name
    · subst hn
      rw [lookupAL, if_pos rfl, Option.some.injEq] at hname
      subst hname
      rw [findModel, hid]
    · rw [lookupAL, if_neg hn] at hname
      have hms₀ : lookupAL ms₀ id = none := by
        cases hq : lookupAL ms₀ id with
        | none => rfl
        | some e' =>
          exfalso
          have := findModel_tail_none hwf hq
          have hin : findModel rest id = some (name, e) :=
            ih (registryWF_tail hwf) hname
          rw [this] at hin
          cases hin
      rw [findModel, hms₀]
      exact ih (registryWF_tail hwf) hname

theorem findModel_registryErase_ne (r : Registry) (name id id' : String)
    (h : id' ≠ id) :
    findModel (registryErase r name id) id' = findModel r id' := by
  induction r with
  | nil => rfl
  | cons p rest ih =>
    obtain ⟨n, ms⟩ := p
    by_cases hn : n = name
    · rw [registryErase, if_pos hn]
      by_cases hempty : eraseAL ms id = []
      · rw [if_pos hempty, findModel]
        have : lookupAL ms id' = none := by
          rw [← lookupAL_eraseAL_ne ms id id' h, hempty]
          rfl
        rw [this]
      · rw [if_neg hempty, findModel, lookupAL_eraseAL_ne ms id id' h, findModel]
    · rw [registryErase, if_neg hn, findModel, findModel]
      cases hlk : lookupAL ms id' with
      | some info => rfl
      | none => exact ih

theorem keysAL_registryErase_sublist (r : Registry) (name id : String) :
    (keysAL (registryErase r name id)).Sublist (keysAL r) := by
  induction r with
  | nil => simp [registryErase]
  | cons p rest ih =>
    obtain ⟨n, ms⟩ := p
    by_cases hn : n = name
    · rw [registryErase, if_pos hn]
      by_cases hempty : eraseAL ms id = []
      · rw [if_pos hempty]
        simp only [keysAL, List.map_cons]
        exact List.sublist_cons_of_sublist _ (List.Sublist.refl _)
      · rw [if_neg hempty]
        simp only [keysAL, List.map_cons]
        exact List.Sublist.cons₂ _ (List.Sublist.refl _)
    · rw [registryErase, if_neg hn]
      simp only [keysAL, List.map_cons]
      exact List.Sublist.cons₂ _ ih

theorem flatten_registryErase_sublist (r : Registry) (name id : String) :
    (((registryErase r name id).map (fun p => keysAL p.2)).flatten).Sublist
      ((r.map (fun p => keysAL p.2)).flatten) := by
  induction r with
  | nil => simp [registryErase]
  | cons p rest ih =>
    obtain ⟨n, ms⟩ := p
    by_cases hn : n = name
    · rw [registryErase, if_pos hn]
      by_cases hempty : eraseAL ms id = []
      · rw [if_pos hempty, List.map_cons, List.flatten_cons]
        exact (List.Sublist.refl _).trans (List.sublist_append_right _ _)
      · rw [if_neg hempty, List.map_cons, List.map_cons, List.flatten_cons, List.flatten_cons]
        exact List.Sublist.append (keysAL_eraseAL_sublist ms id) (List.Sublist.refl _)
    · rw [registryErase, if_neg hn, List.map_cons, List.map_cons,
        List.flatten_cons, List.flatten_cons]
      exact List.Sublist.append (List.Sublist.refl _) ih

theorem registryWF_erase {r : Registry} (name id : String) (hwf : RegistryWF r) :
    RegistryWF (registryErase r name id) :=
  ⟨(keysAL_registryErase_sublist r name id).nodup hwf.1,
   (flatten_registryErase_sublist r name id).nodup hwf.2⟩

/-- Erasing a found id removes it from the scan entirely (well-formed
registry). -/
theorem findModel_registryErase_self {r : Registry} {name id : String} {e : RegistryEntry}
    (hwf : RegistryWF r) (hfind : findModel r id = some (name, e)) :
    findModel (registryErase r name id) id = none := by
  induction r with
  | nil => cases hfind
  | cons p rest ih =>
    obtain ⟨n, ms⟩ := p
    cases hlk : lookupAL ms id with
    | some info =>
      rw [findModel, hlk, Option.some.injEq, Prod.mk.injEq] at hfind
      have hn : n = name := hfind.1
      rw [registryErase, if_pos hn]
      have htail : findModel rest id = none := findModel_tail_none hwf hlk
      by_cases hempty : eraseAL ms id = []
      · rw [if_pos hempty]
        exact htail
      · rw [if_neg hempty, findModel]
        have hinner : (keysAL ms).Nodup :=
          @registryWF_inner_nodup ((n, ms) :: rest) n ms hwf (List.mem_cons_self _ _)
        rw [lookupAL_eraseAL_self ms id hinner]
        exact htail
    | none =>
      rw [findModel, hlk] at hfind
      have hn : n ≠ name := by
        intro hh
        subst hh
        obtain ⟨ms', hmem, hlk'⟩ := findModel_mem hfind
        have hkeys : (keysAL ((n, ms) :: rest)).Nodup := hwf.1
        rw [keysAL, List.map_cons, List.nodup_cons] at hkeys
        exact hkeys.1 (List.mem_map.mpr ⟨(n, ms'), hmem, rfl⟩)
      rw [registryErase, if_neg hn, findModel, hlk]
      exact ih (registryWF_tail hwf) hfind

/-- Witness for C4: a concrete save followed by a load by the fresh id. -/
theorem c4_save_load_round_trip_witness :
    (save_model envAllOk (pmOf []) scalarModel "m" "1" [("acc", 95)] none none none).1
        = .ok "m_v1_20240101_120000" ∧
    ∃ md, (load_model
        (save_model envAllOk (pmOf []) scalarModel "m" "1" [("acc", 95)] none none none).2
        "m_v1_20240101_120000").1 = .ok (scalarModel, md) ∧
      md.model_name = "m" ∧
      md.version = "1" ∧
      md.performance_metrics = [("acc", 95)] ∧
      md.parameters = [] ∧
      md.model_type = "custom" ∧
      md.model_id = "m_v1_20240101_120000" :=
  c4_save_load_round_trip envAllOk (pmOf []) scalarModel "m" "1" [("acc", 95)]
    none none none rfl rfl

/-! ## String and path lemmas -/

theorem foldl_afterLast_no_sep (sep : Char) (zs : List Char) (h : sep ∉ zs) :
    ∀ acc, zs.foldl (fun acc c => if c = sep then [] else acc ++ [c]) acc = acc ++ zs := by
  induction zs with
  | nil => intro acc; simp
  | cons c cs ih =>
    intro acc
    rw [List.mem_cons] at h
    push_neg at h
    rw [List.foldl_cons, if_neg (fun hh => h.1 hh.symm), ih h.2]
    simp

theorem afterLast_no_sep (sep : Char) (zs : List Char) (h : sep ∉ zs) :
    afterLast sep zs = zs := by
  rw [afterLast]
  simpa using foldl_afterLast_no_sep sep zs h []

theorem afterLast_append_sep (sep : Char) (xs ys : List Char) :
    afterLast sep (xs ++ sep :: ys) = afterLast sep ys := by
  rw [afterLast, afterLast]
  rw [show xs ++ sep :: ys = (xs ++ [sep]) ++ ys by simp]
  rw [List.foldl_append]
  congr 1
  rw [List.foldl_append]
  simp

theorem baseName_concat (dir nm : String) (h : '/' ∉ nm.data) :
    baseName (dir ++ "/" ++ nm) = nm := by
  rw [baseName, String.data_append, String.data_append]
  rw [show ("/" : String).data = ['/'] from rfl]
  rw [show dir.data ++ ['/'] ++ nm.data = dir.data ++ '/' :: nm.data by simp]
  rw [afterLast_append_sep, afterLast_no_sep _ _ h]

theorem isPrefixOf_self_append (l t : List Char) : l.isPrefixOf (l ++ t) = true :=
  List.isPrefixOf_iff_prefix.mpr (List.prefix_append _ _)

theorem endsWithStr_concat (s t : String) : endsWithStr (s ++ t) t = true := by
  rw [endsWithStr, String.data_append]
  exact List.isSuffixOf_iff_suffix.mpr (List.suffix_append _ _)

theorem directChild_concat (dir nm : String) (h : '/' ∉ nm.data) :
    directChild dir (dir ++ "/" ++ nm) = true := by
  have hdata : (dir ++ "/" ++ nm).data = (dir ++ "/").data ++ nm.data :=
    String.data_append _ _
  simp only [directChild, hdata, isPrefixOf_self_append, List.drop_left, Bool.true_and,
    Bool.not_eq_true']
  rw [← Bool.not_eq_true]
  intro hc
  exact h (by simpa using hc)

theorem extAfterDot_concat (dir stem ext : String) (hs₁ : '/' ∉ stem.data)
    (he₁ : '/' ∉ ext.data) (he₂ : '.' ∉ ext.data) :
    extAfterDot (dir ++ "/" ++ (stem ++ "." ++ ext)) = ext := by
  have hnm : '/' ∉ (stem ++ "." ++ ext).data := by
    rw [String.data_append, String.data_append]
    intro hmem
    rcases List.mem_append.mp hmem with hmem | hmem
    · rcases List.mem_append.mp hmem with hmem | hmem
      · exact hs₁ hmem
      · rw [show ("." : String).data = ['.'] from rfl] at hmem
        simp at hmem
    · exact he₁ hmem
  rw [extAfterDot, baseName_concat _ _ hnm]
  have hdot : '.' ∈ (stem ++ "." ++ ext).data := by
    rw [String.data_append, String.data_append]
    rw [show ("." : String).data = ['.'] from rfl]
    simp
  rw [if_pos hdot]
  rw [String.data_append, String.data_append]
  rw [show ("." : String).data = ['.'] from rfl]
  rw [show stem.data ++ ['.'] ++ ext.data = stem.data ++ '.' :: ext.data by simp]
  rw [afterLast_append_sep, afterLast_no_sep _ _ he₂]

theorem replChars_len_lt (pat rep : List Char) (l : List Char)
    (h : l.length < pat.length) : ∀ fuel, replChars pat rep fuel l = l := by
  intro fuel
  induction fuel generalizing l with
  | zero => cases l <;> rfl
  | succ f ih =>
    cases l with
    | nil => rfl
    | cons c cs =>
      rw [replChars]
      have hpre : ¬ (pat ≠ [] ∧ pat.isPrefixOf (c :: cs) = true) := by
        rintro ⟨-, hp⟩
        have hle := (List.isPrefixOf_iff_prefix.mp hp).length_le
        simp only [List.length_cons] at h hle
        omega
      rw [if_neg hpre]
      rw [ih cs (by rw [List.length_cons] at h; omega)]

theorem replChars_head_match (pat rep suf : List Char) (hne : pat ≠ [])
    (hlen : suf.length < pat.length) :
    replChars pat rep (pat ++ suf).length (pat ++ suf) = rep ++ suf := by
  cases pat with
  | nil => cases hne rfl
  | cons c pd =>
    rw [show ((c :: pd) ++ suf).length = (pd ++ suf).length + 1 by simp]
    rw [show (c :: pd) ++ suf = c :: (pd ++ suf) from rfl]
    rw [replChars]
    rw [if_pos ⟨hne, by
      rw [show c :: (pd ++ suf) = (c :: pd) ++ suf from rfl]
      exact isPrefixOf_self_append _ _⟩]
    rw [show (c :: pd).length - 1 = pd.length by simp]
    rw [List.drop_left]
    rw [replChars_len_lt _ rep suf (by simpa using hlen) _]

theorem pyReplace_concat (pat suf rep : String) (hne : pat ≠ "")
    (hlen : suf.data.length < pat.data.length) :
    pyReplace (pat ++ suf) pat rep = rep ++ suf := by
  have hne' : pat.data ≠ [] := by
    intro hh
    apply hne
    cases pat with
    | mk d => cases hh; rfl
  rw [pyReplace]
  rw [show (pat ++ suf).data = pat.data ++ suf.data from String.data_append _ _]
  rw [replChars_head_match pat.data rep.data suf.data hne' hlen]
  rw [← String.data_append]

/-- The restored model id never equals the original id (the original id's
timestamp holds only digits and underscores, while the restored id embeds
the word `restored`). -/
theorem restored_id_ne (name ver ts₁ ts₂ : String) (h₁ : TimestampOk ts₁) :
    generate_model_id name (ver ++ "_restored") ts₂ ≠ generate_model_id name ver ts₁ := by
  intro h
  have hdata := congrArg String.data h
  simp only [generate_model_id, String.data_append, List.append_assoc] at hdata
  have h₂ := List.append_cancel_left hdata
  have h₃ := List.append_cancel_left h₂
  have h₄ := List.append_cancel_left h₃
  simp only [List.cons_append, List.nil_append, List.cons.injEq, true_and] at h₄
  have hmem : 'r' ∈ ts₁.data := by
    rw [← h₄]
    simp
  rcases h₁.2 'r' hmem with hd | hd <;> simp at hd

/-! ## Claim C6: cleanup of old versions -/

/-- `delete_model` on a found id: the in-memory registry loses exactly that
entry, one registry-write slot is consumed, and the call succeeds exactly
when that write succeeds. -/
theorem delete_model_spec (env : Env) (st : PMState) (id nm : String) (e : RegistryEntry)
    (hfind : findModel st.registry id = some (nm, e)) :
    (delete_model env st id true).2.registry = registryErase st.registry nm id ∧
    (delete_model env st id true).2.writeCtr = st.writeCtr + 1 ∧
    isOkE (delete_model env st id true).1 = env.writeOk st.writeCtr := by
  rcases hart : lookupAL st.disk.artifacts e.file_path with _ | m <;>
    rcases hmd : lookupAL st.disk.metaDocs e.metadata_path with _ | md <;>
    cases hw : env.writeOk st.writeCtr <;>
    refine ⟨?_, ?_, ?_⟩ <;>
    simp [delete_model, backup_model, save_registry, hfind, hart, hmd, hw, isOkE]

theorem survivors_sublist (env : Env) (c : Nat) (ids : List String) :
    (survivors env c ids).Sublist ids := by
  induction ids generalizing c with
  | nil => simp [survivors]
  | cons id rest ih =>
    rw [survivors]
    by_cases h : env.writeOk c = true
    · rw [if_pos h]
      exact List.Sublist.cons₂ _ (ih (c + 1))
    · rw [if_neg h]
      exact List.sublist_cons_of_sublist _ (ih (c + 1))

theorem survivors_all_ok (env : Env) (hok : ∀ c, env.writeOk c = true) :
    ∀ (c : Nat) (ids : List String), survivors env c ids = ids := by
  intro c ids
  induction ids generalizing c with
  | nil => rfl
  | cons id rest ih => rw [survivors, if_pos (hok c), ih]

/-- The deletion loop of cleanup: the returned ids are exactly the attempted
ids whose registry write succeeded; every attempted id is gone from the
in-memory registry afterwards (even when its write failed, matching the
no-reinsertion design); ids outside the attempt list keep their scan
result. -/
theorem cleanupLoop_spec (env : Env) :
    ∀ (ids : List String) (st : PMState) (name : String),
    RegistryWF st.registry →
    ids.Nodup →
    (∀ id ∈ ids, ∃ e, findModel st.registry id = some (name, e)) →
    (cleanupLoop env ids st).1 = survivors env st.writeCtr ids ∧
    (∀ id ∈ ids, findModel (cleanupLoop env ids st).2.registry id = none) ∧
    (∀ id', id' ∉ ids →
      findModel (cleanupLoop env ids st).2.registry id' = findModel st.registry id') := by
  intro ids
  induction ids with
  | nil =>
    intro st name _ _ _
    exact ⟨rfl, by simp, fun id' _ => rfl⟩
  | cons id rest ih =>
    intro st name hwf hnd hfind
    obtain ⟨e, hfe⟩ := hfind id (by simp)
    obtain ⟨hnd₁, hnd₂⟩ := List.nodup_cons.mp hnd
    rcases hdel : delete_model env st id true with ⟨res, st'⟩
    obtain ⟨h₁, h₂, h₃⟩ := delete_model_spec env st id name e hfe
    rw [hdel] at h₁ h₂ h₃
    have h₁' : st'.registry = registryErase st.registry name id := h₁
    have h₂' : st'.writeCtr = st.writeCtr + 1 := h₂
    have h₃' : isOkE res = env.writeOk st.writeCtr := h₃
    have hwf' : RegistryWF st'.registry := by
      rw [h₁']
      exact registryWF_erase name id hwf
    have hfind' : ∀ id2 ∈ rest, ∃ e2, findModel st'.registry id2 = some (name, e2) := by
      intro id2 hm
      obtain ⟨e2, hfe2⟩ := hfind id2 (List.mem_cons_of_mem _ hm)
      have hne : id2 ≠ id := fun hh => hnd₁ (hh ▸ hm)
      refine ⟨e2, ?_⟩
      rw [h₁', findModel_registryErase_ne _ _ _ _ hne]
      exact hfe2
    obtain ⟨ih₁, ih₂, ih₃⟩ := ih st' name hwf' hnd₂ hfind'
    have hgone : findModel st'.registry id = none := by
      rw [h₁']
      exact findModel_registryErase_self hwf hfe
    cases res with
    | ok b =>
      have hwok : env.writeOk st.writeCtr = true := by
        rw [← h₃']; rfl
      refine ⟨?_, ?_, ?_⟩
      · rw [cleanupLoop, hdel]
        rw [survivors, if_pos hwok]
        simp only []
        rw [ih₁, h₂']
      · intro id2 hm
        rw [cleanupLoop, hdel]
        simp only []
        rcases List.mem_cons.mp hm with h | h
        · subst h
          rw [ih₃ id2 hnd₁]
          exact hgone
        · exact ih₂ id2 h
      · intro id' hnm
        rw [cleanupLoop, hdel]
        simp only []
        rw [List.mem_cons] at hnm
        push_neg at hnm
        rw [ih₃ id' hnm.2, h₁', findModel_registryErase_ne _ _ _ _ hnm.1]
    | error err =>
      have hwok : env.writeOk st.writeCtr = false := by
        rw [← h₃']; rfl
      refine ⟨?_, ?_, ?_⟩
      · rw [cleanupLoop, hdel]
        rw [survivors, if_neg (by rw [hwok]; exact Bool.false_ne_true)]
        rw [ih₁, h₂']
      · intro id2 hm
        rw [cleanupLoop, hdel]
        rcases List.mem_cons.mp hm with h | h
        · subst h
          rw [ih₃ id2 hnd₁]
          exact hgone
        · exact ih₂ id2 h
      · intro id' hnm
        rw [cleanupLoop, hdel]
        rw [List.mem_cons] at hnm
        push_neg at hnm
        rw [ih₃ id' hnm.2, h₁', findModel_registryErase_ne _ _ _ _ hnm.1]

/-- **C6.** With `n` active entries under a name and `keepVersions = k < n`,
cleanup sorts the active entries by `training_date` descending and attempts
to delete exactly the entries after the first `k` — the `n − k` oldest, each
kept entry's date being no smaller than each deleted entry's date.  The
returned ids are exactly the attempted ids whose registry write succeeded
(a failure on one does not abort the others); when every write succeeds
exactly the `n − k` oldest ids are returned; every returned id is gone from
the registry, and entries outside the attempt list are untouched. -/
theorem c6_cleanup_deletes_oldest (env : Env) (st : PMState) (model_name : String)
    (keep_versions : Nat) (models : List (String × RegistryEntry))
    (hreg : lookupAL st.registry model_name = some models)
    (hwf : RegistryWF st.registry)
    (hk : keep_versions < (activeOf models).length) :
    (∀ p ∈ (sortByDateDesc (activeOf models)).take keep_versions,
      ∀ q ∈ (sortByDateDesc (activeOf models)).drop keep_versions,
        strLtB p.2.training_date q.2.training_date = false) ∧
    (cleanup_old_models env st model_name keep_versions).1
      = survivors env st.writeCtr
          (((sortByDateDesc (activeOf models)).drop keep_versions).map (·.1)) ∧
    ((∀ c, env.writeOk c = true) →
      (cleanup_old_models env st model_name keep_versions).1
        = ((sortByDateDesc (activeOf models)).drop keep_versions).map (·.1)) ∧
    (∀ id ∈ (cleanup_old_models env st model_name keep_versions).1,
      findModel (cleanup_old_models env st model_name keep_versions).2.registry id = none) ∧
    (∀ id, id ∉ (((sortByDateDesc (activeOf models)).drop keep_versions).map (·.1)) →
      findModel (cleanup_old_models env st model_name keep_versions).2.registry id
        = findModel st.registry id) := by
  have hsorted : List.Sorted byDateDesc (sortByDateDesc (activeOf models)) :=
    List.sorted_insertionSort byDateDesc (activeOf models)
  have hperm : (sortByDateDesc (activeOf models)).Perm (activeOf models) :=
    List.perm_insertionSort byDateDesc (activeOf models)
  have hmem_models : (model_name, models) ∈ st.registry := lookupAL_mem hreg
  have hinner : (keysAL models).Nodup := registryWF_inner_nodup hwf hmem_models
  -- every pair in the sorted candidates is present in `models`
  have hpair_mem : ∀ p ∈ sortByDateDesc (activeOf models), p ∈ models := by
    intro p hp
    exact List.mem_of_mem_filter (hperm.mem_iff.mp hp)
  -- the attempted ids and the loop invariant
  have hattempt_mem : ∀ id ∈ ((sortByDateDesc (activeOf models)).drop keep_versions).map (·.1),
      ∃ e, findModel st.registry id = some (model_name, e) := by
    intro id hid
    obtain ⟨⟨id', e⟩, hpe, hfst⟩ := List.mem_map.mp hid
    subst hfst
    have hmem : (id', e) ∈ models :=
      hpair_mem _ ((List.drop_sublist _ _).mem hpe)
    exact ⟨e, findModel_eq_of_lookup hwf hreg (lookupAL_of_mem hmem hinner)⟩
  have hnd_attempt : (((sortByDateDesc (activeOf models)).drop keep_versions).map (·.1)).Nodup := by
    have h₁ : ((sortByDateDesc (activeOf models)).map (·.1)).Nodup := by
      have hsub : ((activeOf models).map (·.1)).Sublist (keysAL models) :=
        List.Sublist.map _ (List.filter_sublist models)
      have : ((activeOf models).map (·.1)).Nodup := hsub.nodup hinner
      exact ((hperm.map (·.1)).nodup_iff).mpr this
    exact (List.Sublist.map _ (List.drop_sublist _ _)).nodup h₁
  have hlen : ¬ ((activeOf models).length ≤ keep_versions) := by omega
  have hcleanup : cleanup_old_models env st model_name keep_versions
      = cleanupLoop env (((sortByDateDesc (activeOf models)).drop keep_versions).map (·.1)) st := by
    simp only [cleanup_old_models, hreg, if_neg hlen]
  obtain ⟨hl₁, hl₂, hl₃⟩ := cleanupLoop_spec env
    (((sortByDateDesc (activeOf models)).drop keep_versions).map (·.1)) st model_name
    hwf hnd_attempt hattempt_mem
  refine ⟨?_, ?_, ?_, ?_, ?_⟩
  · intro p hp q hq
    have := hsorted
    rw [List.Sorted, ← List.take_append_drop keep_versions (sortByDateDesc (activeOf models))]
      at this
    exact (List.pairwise_append.mp this).2.2 p hp q hq
  · rw [hcleanup]
    exact hl₁
  · intro hok
    rw [hcleanup, hl₁]
    exact survivors_all_ok env hok _ _
  · intro id hid
    rw [hcleanup] at hid ⊢
    refine hl₂ id ?_
    rw [hl₁] at hid
    exact (survivors_sublist env st.writeCtr _).mem hid
  · intro id hid
    rw [hcleanup]
    exact hl₃ id hid

/-- Witness for C6: seven active entries and `keepVersions = 5` delete
exactly the two oldest (`id1`, `id0`) and return exactly those ids. -/
theorem c6_cleanup_deletes_oldest_witness :
    (cleanup_old_models envAllOk (pmOf reg7) "m" 5).1 = ["id1", "id0"] ∧
    (∀ p ∈ (sortByDateDesc (activeOf reg7.head!.2)).take 5,
      ∀ q ∈ (sortByDateDesc (activeOf reg7.head!.2)).drop 5,
        strLtB p.2.training_date q.2.training_date = false) ∧
    (∀ id ∈ (cleanup_old_models envAllOk (pmOf reg7) "m" 5).1,
      findModel (cleanup_old_models envAllOk (pmOf reg7) "m" 5).2.registry id = none) := by
  have h := c6_cleanup_deletes_oldest envAllOk (pmOf reg7) "m" 5 (reg7.head!.2)
    rfl (by decide) (by decide)
  refine ⟨?_, h.1, h.2.2.2.1⟩
  rw [h.2.2.1 (fun c => rfl)]
  decide

/-! ## Claim C5: delete, reload, restore -/

/-- The registry-erase of any name keeps an id absent from every block. -/
theorem registryErase_forall_none {r : Registry} {k : String}
    (h : ∀ p ∈ r, lookupAL p.2 k = none) (name id : String) :
    ∀ p ∈ registryErase r name id, lookupAL p.2 k = none := by
  induction r with
  | nil => intro p hp; cases hp
  | cons q rest ih =>
    obtain ⟨n, ms⟩ := q
    intro p hp
    by_cases hn : n = name
    · rw [registryErase, if_pos hn] at hp
      by_cases hempty : eraseAL ms id = []
      · rw [if_pos hempty] at hp
        exact h p (List.mem_cons_of_mem _ hp)
      · rw [if_neg hempty] at hp
        rcases List.mem_cons.mp hp with h' | h'
        · rw [h']
          exact lookupAL_eraseAL_none ms id k (h (n, ms) (by simp))
        · exact h p (List.mem_cons_of_mem _ h')
    · rw [registryErase, if_neg hn] at hp
      rcases List.mem_cons.mp hp with h' | h'
      · rw [h']
        exact h (n, ms) (by simp)
      · exact ih (fun q hq => h q (List.mem_cons_of_mem _ hq)) p h'

/-- A copy fold over files none of which lie in the scanned directory is the
identity. -/
theorem foldl_copy_skip {α : Type} (b : String) (f : String × α → String)
    (l : List (String × α)) (h : ∀ p ∈ l, directChild b p.1 = false) :
    ∀ acc, l.foldl (fun acc p =>
      if directChild b p.1 then insertAL acc (f p) p.2 else acc) acc = acc := by
  induction l with
  | nil => intro acc; rfl
  | cons p rest ih =>
    intro acc
    rw [List.foldl_cons, if_neg (by rw [h p (by simp)]; exact Bool.false_ne_true)]
    exact ih (fun q hq => h q (List.mem_cons_of_mem _ hq)) acc

end BHC
namespace BHC
section
variable (env : Env) (st : PMState) (id nm : String)
  (e : RegistryEntry) (md : ModelMetadata) (model : OpaqueModel) (ts₁ : String)

/-- Full-state characterization of `restore_model` (lines 465-537) run on the
state that a successful `delete_model` leaves behind, pointed at the backup
directory that deletion created: it succeeds, returns the freshly generated
`_restored` id and installs copies of the backed-up artifact and metadata
under the new id. -/
theorem restore_after_delete_full_state (hwf : RegistryWF st.registry)
    (hfind : findModel st.registry id = some (nm, e))
    (hmdoc : lookupAL st.disk.metaDocs e.metadata_path = some md)
    (hart : lookupAL st.disk.artifacts e.file_path = some model)
    (hmid : md.model_id = id)
    (hshape : id = generate_model_id md.model_name md.version ts₁)
    (hts₁ : TimestampOk ts₁)
    (hslash_id : '/' ∉ id.data)
    (hidlen : 18 ≤ id.data.length)
    (hext : extAfterDot md.file_path = "pkl")
    (hstray_m : ∀ p ∈ st.disk.metaDocs,
      directChild (st.backup_path ++ "/" ++ id ++ "_" ++ env.stamp st.timeCtr) p.1 = false)
    (hstray_a : ∀ p ∈ st.disk.artifacts,
      directChild (st.backup_path ++ "/" ++ id ++ "_" ++ env.stamp st.timeCtr) p.1 = false)
    (hw₂ : env.writeOk (st.writeCtr + 1) = true) :
    restore_model env
      { base_path := st.base_path, backup_path := st.backup_path
        registry := registryErase st.registry nm id
        disk := { registryDoc := registryErase st.registry nm id
                  metaDocs := eraseAL (insertAL st.disk.metaDocs
                    (st.backup_path ++ "/" ++ id ++ "_" ++ env.stamp st.timeCtr ++ "/"
                      ++ (id ++ "_metadata.json")) md) e.metadata_path
                  artifacts := eraseAL (insertAL st.disk.artifacts
                    (st.backup_path ++ "/" ++ id ++ "_" ++ env.stamp st.timeCtr ++ "/"
                      ++ (id ++ ".pkl")) model) e.file_path
                  reads := st.disk.reads }
        writeCtr := st.writeCtr + 1, timeCtr := st.timeCtr + 1 }
      (st.backup_path ++ "/" ++ id ++ "_" ++ env.stamp st.timeCtr)
    = (.ok (generate_model_id md.model_name (md.version ++ "_restored")
          (env.stamp (st.timeCtr + 1))),
       { base_path := st.base_path, backup_path := st.backup_path
         registry :=
           (registryInsert (registryErase st.registry nm id) md.model_name
             (generate_model_id md.model_name (md.version ++ "_restored")
               (env.stamp (st.timeCtr + 1)))
             { version := md.version ++ "_restored"
               training_date := md.training_date
               performance_metrics := md.performance_metrics
               file_path := (st.base_path ++ "/"
                 ++ generate_model_id md.model_name (md.version ++ "_restored")
                   (env.stamp (st.timeCtr + 1))
                 ++ "/" ++ generate_model_id md.model_name (md.version ++ "_restored")
                   (env.stamp (st.timeCtr + 1))
                 ++ "." ++ "pkl")
               metadata_path := (st.base_path ++ "/"
                 ++ generate_model_id md.model_name (md.version ++ "_restored")
                   (env.stamp (st.timeCtr + 1))
                 ++ "/" ++ generate_model_id md.model_name (md.version ++ "_restored")
                   (env.stamp (st.timeCtr + 1))
                 ++ "_metadata.json")
               active := some true })
         disk :=
           { registryDoc :=
               (registryInsert (registryErase st.registry nm id) md.model_name
                 (generate_model_id md.model_name (md.version ++ "_restored")
                   (env.stamp (st.timeCtr + 1)))
                 { version := md.version ++ "_restored"
                   training_date := md.training_date
                   performance_metrics := md.performance_metrics
                   file_path := (st.base_path ++ "/"
                     ++ generate_model_id md.model_name (md.version ++ "_restored")
                       (env.stamp (st.timeCtr + 1))
                     ++ "/" ++ generate_model_id md.model_name (md.version ++ "_restored")
                       (env.stamp (st.timeCtr + 1))
                     ++ "." ++ "pkl")
                   metadata_path := (st.base_path ++ "/"
                     ++ generate_model_id md.model_name (md.version ++ "_restored")
                       (env.stamp (st.timeCtr + 1))
                     ++ "/" ++ generate_model_id md.model_name (md.version ++ "_restored")
                       (env.stamp (st.timeCtr + 1))
                     ++ "_metadata.json")
                   active := some true })
             metaDocs :=
               (insertAL
                 (insertAL (eraseAL st.disk.metaDocs e.metadata_path
                   ++ [((st.backup_path ++ "/" ++ id ++ "_" ++ env.stamp st.timeCtr ++ "/"
                     ++ (id ++ "_metadata.json")), md)])
                   (st.base_path ++ "/"
                     ++ generate_model_id md.model_name (md.version ++ "_restored")
                       (env.stamp (st.timeCtr + 1))
                     ++ "/" ++ (generate_model_id md.model_name (md.version ++ "_restored")
                       (env.stamp (st.timeCtr + 1)) ++ "_metadata.json"))
                   md)
                 (st.base_path ++ "/"
                   ++ generate_model_id md.model_name (md.version ++ "_restored")
                     (env.stamp (st.timeCtr + 1))
                   ++ "/" ++ generate_model_id md.model_name (md.version ++ "_restored")
                     (env.stamp (st.timeCtr + 1))
                   ++ "_metadata.json")
                 { md with
                   model_id := generate_model_id md.model_name (md.version ++ "_restored")
                     (env.stamp (st.timeCtr + 1))
                   file_path := (st.base_path ++ "/"
                     ++ generate_model_id md.model_name (md.version ++ "_restored")
                       (env.stamp (st.timeCtr + 1))
                     ++ "/" ++ generate_model_id md.model_name (md.version ++ "_restored")
                       (env.stamp (st.timeCtr + 1))
                     ++ "." ++ "pkl") })
             artifacts :=
               (insertAL (eraseAL st.disk.artifacts e.file_path
                   ++ [((st.backup_path ++ "/" ++ id ++ "_" ++ env.stamp st.timeCtr ++ "/"
                     ++ (id ++ ".pkl")), model)])
                 (st.base_path ++ "/"
                   ++ generate_model_id md.model_name (md.version ++ "_restored")
                     (env.stamp (st.timeCtr + 1))
                   ++ "/" ++ (generate_model_id md.model_name (md.version ++ "_restored")
                     (env.stamp (st.timeCtr + 1)) ++ ".pkl"))
                 model)
             reads := st.disk.reads + 1 }
         writeCtr := st.writeCtr + 2, timeCtr := st.timeCtr + 2 }) := by
  have hnm_json : '/' ∉ (id ++ "_metadata.json").data := by
    rw [String.data_append]
    intro hmem
    rcases List.mem_append.mp hmem with hmem | hmem
    · exact hslash_id hmem
    · revert hmem; decide
  have hnm_pkl : '/' ∉ (id ++ ".pkl").data := by
    rw [String.data_append]
    intro hmem
    rcases List.mem_append.mp hmem with hmem | hmem
    · exact hslash_id hmem
    · revert hmem; decide
  have hbm_fresh : lookupAL st.disk.metaDocs
      (st.backup_path ++ "/" ++ id ++ "_" ++ env.stamp st.timeCtr ++ "/"
        ++ (id ++ "_metadata.json")) = none := by
    apply lookupAL_none_of_not_mem_keys
    intro hmem
    obtain ⟨p, hp, hfst⟩ := List.mem_map.mp hmem
    have hfalse := hstray_m p hp
    rw [hfst] at hfalse
    rw [directChild_concat _ _ hnm_json] at hfalse
    cases hfalse
  have hba_fresh : lookupAL st.disk.artifacts
      (st.backup_path ++ "/" ++ id ++ "_" ++ env.stamp st.timeCtr ++ "/"
        ++ (id ++ ".pkl")) = none := by
    apply lookupAL_none_of_not_mem_keys
    intro hmem
    obtain ⟨p, hp, hfst⟩ := List.mem_map.mp hmem
    have hfalse := hstray_a p hp
    rw [hfst] at hfalse
    rw [directChild_concat _ _ hnm_pkl] at hfalse
    cases hfalse
  have hmetaNF : eraseAL (insertAL st.disk.metaDocs
      (st.backup_path ++ "/" ++ id ++ "_" ++ env.stamp st.timeCtr ++ "/"
        ++ (id ++ "_metadata.json")) md) e.metadata_path
      = eraseAL st.disk.metaDocs e.metadata_path
        ++ [((st.backup_path ++ "/" ++ id ++ "_" ++ env.stamp st.timeCtr ++ "/"
          ++ (id ++ "_metadata.json")), md)] := by
    rw [insertAL_fresh _ _ _ hbm_fresh, eraseAL_append_left]
    rw [hmdoc]; rfl
  have hartNF : eraseAL (insertAL st.disk.artifacts
      (st.backup_path ++ "/" ++ id ++ "_" ++ env.stamp st.timeCtr ++ "/"
        ++ (id ++ ".pkl")) model) e.file_path
      = eraseAL st.disk.artifacts e.file_path
        ++ [((st.backup_path ++ "/" ++ id ++ "_" ++ env.stamp st.timeCtr ++ "/"
          ++ (id ++ ".pkl")), model)] := by
    rw [insertAL_fresh _ _ _ hba_fresh, eraseAL_append_left]
    rw [hart]; rfl
  have hglob : List.filter (fun p => directChild
        (st.backup_path ++ "/" ++ id ++ "_" ++ env.stamp st.timeCtr) p.1
        && endsWithStr p.1 "_metadata.json")
      (eraseAL st.disk.metaDocs e.metadata_path
        ++ [((st.backup_path ++ "/" ++ id ++ "_" ++ env.stamp st.timeCtr ++ "/"
          ++ (id ++ "_metadata.json")), md)])
      = [((st.backup_path ++ "/" ++ id ++ "_" ++ env.stamp st.timeCtr ++ "/"
          ++ (id ++ "_metadata.json")), md)] := by
    rw [List.filter_append]
    have h1 : List.filter (fun p => directChild
        (st.backup_path ++ "/" ++ id ++ "_" ++ env.stamp st.timeCtr) p.1
        && endsWithStr p.1 "_metadata.json")
        (eraseAL st.disk.metaDocs e.metadata_path) = [] := by
      rw [List.filter_eq_nil_iff]
      intro p hp
      have hp' : p ∈ st.disk.metaDocs := (eraseAL_sublist _ _).mem hp
      simp [hstray_m p hp']
    rw [h1, List.nil_append]
    have hdc : directChild (st.backup_path ++ "/" ++ id ++ "_" ++ env.stamp st.timeCtr)
        (st.backup_path ++ "/" ++ id ++ "_" ++ env.stamp st.timeCtr ++ "/"
          ++ (id ++ "_metadata.json")) = true :=
      directChild_concat _ _ hnm_json
    have hew : endsWithStr (st.backup_path ++ "/" ++ id ++ "_" ++ env.stamp st.timeCtr ++ "/"
          ++ (id ++ "_metadata.json")) "_metadata.json" = true := by
      rw [← String.append_assoc]
      exact endsWithStr_concat _ _
    simp [hdc, hew]
  -- abbreviations
  have hne_id : id ≠ "" := by
    intro hh
    rw [hh] at hidlen
    simp at hidlen
  have hlen_pkl : (".pkl" : String).data.length < id.data.length := by
    have : (".pkl" : String).data.length = 4 := rfl
    omega
  have hlen_json : ("_metadata.json" : String).data.length < id.data.length := by
    have : ("_metadata.json" : String).data.length = 14 := rfl
    omega
  have hany_m : (eraseAL st.disk.metaDocs e.metadata_path
      ++ [((st.backup_path ++ "/" ++ id ++ "_" ++ env.stamp st.timeCtr ++ "/"
        ++ (id ++ "_metadata.json")), md)]).any
      (fun p => (((st.backup_path ++ "/" ++ id ++ "_" ++ env.stamp st.timeCtr) ++ "/").data).isPrefixOf p.1.data)
      = true := by
    rw [List.any_eq_true]
    refine ⟨_, List.mem_append_right _ (List.mem_singleton_self _), ?_⟩
    rw [String.data_append]
    exact isPrefixOf_self_append _ _
  have hfold_a : ∀ acc, (eraseAL st.disk.artifacts e.file_path
      ++ [((st.backup_path ++ "/" ++ id ++ "_" ++ env.stamp st.timeCtr ++ "/"
        ++ (id ++ ".pkl")), model)]).foldl
      (fun acc p => if directChild (st.backup_path ++ "/" ++ id ++ "_" ++ env.stamp st.timeCtr) p.1
        then insertAL acc
          (st.base_path ++ "/"
            ++ generate_model_id md.model_name (md.version ++ "_restored") (env.stamp (st.timeCtr + 1))
            ++ "/" ++ pyReplace (baseName p.1) id
              (generate_model_id md.model_name (md.version ++ "_restored") (env.stamp (st.timeCtr + 1))))
          p.2
        else acc) acc
      = insertAL acc
          (st.base_path ++ "/"
            ++ generate_model_id md.model_name (md.version ++ "_restored") (env.stamp (st.timeCtr + 1))
            ++ "/" ++ (generate_model_id md.model_name (md.version ++ "_restored") (env.stamp (st.timeCtr + 1))
              ++ ".pkl"))
          model := by
    intro acc
    rw [List.foldl_append]
    rw [foldl_copy_skip _ _ _ (fun p hp => hstray_a p ((eraseAL_sublist _ _).mem hp))]
    rw [List.foldl_cons, List.foldl_nil]
    rw [if_pos (directChild_concat _ _ hnm_pkl)]
    rw [baseName_concat _ _ hnm_pkl, pyReplace_concat id ".pkl" _ hne_id hlen_pkl]
  have hfold_m : ∀ acc, (eraseAL st.disk.metaDocs e.metadata_path
      ++ [((st.backup_path ++ "/" ++ id ++ "_" ++ env.stamp st.timeCtr ++ "/"
        ++ (id ++ "_metadata.json")), md)]).foldl
      (fun acc p => if directChild (st.backup_path ++ "/" ++ id ++ "_" ++ env.stamp st.timeCtr) p.1
        then insertAL acc
          (st.base_path ++ "/"
            ++ generate_model_id md.model_name (md.version ++ "_restored") (env.stamp (st.timeCtr + 1))
            ++ "/" ++ pyReplace (baseName p.1) id
              (generate_model_id md.model_name (md.version ++ "_restored") (env.stamp (st.timeCtr + 1))))
          p.2
        else acc) acc
      = insertAL acc
          (st.base_path ++ "/"
            ++ generate_model_id md.model_name (md.version ++ "_restored") (env.stamp (st.timeCtr + 1))
            ++ "/" ++ (generate_model_id md.model_name (md.version ++ "_restored") (env.stamp (st.timeCtr + 1))
              ++ "_metadata.json"))
          md := by
    intro acc
    rw [List.foldl_append]
    rw [foldl_copy_skip _ _ _ (fun p hp => hstray_m p ((eraseAL_sublist _ _).mem hp))]
    rw [List.foldl_cons, List.foldl_nil]
    rw [if_pos (directChild_concat _ _ hnm_json)]
    rw [baseName_concat _ _ hnm_json, pyReplace_concat id "_metadata.json" _ hne_id hlen_json]
  simp only [restore_model, hmetaNF, hartNF, hglob, hany_m, hmid, Bool.or_true, Bool.not_true,
    Bool.false_eq_true, if_false, hfold_a, hfold_m, hext, save_registry, hw₂, if_true]

/-- Full-state characterization of a successful `delete_model` with backup
(lines 361-420): the backup copies are inserted, the original files erased,
the registry entry dropped and the registry document persisted. -/
theorem delete_model_full_state
    (hfind : findModel st.registry id = some (nm, e))
    (hmdoc : lookupAL st.disk.metaDocs e.metadata_path = some md)
    (hart : lookupAL st.disk.artifacts e.file_path = some model)
    (hbase_fp : baseName e.file_path = id ++ ".pkl")
    (hbase_mp : baseName e.metadata_path = id ++ "_metadata.json")
    (hw1 : env.writeOk st.writeCtr = true) :
    delete_model env st id true
    = (.ok true,
       { base_path := st.base_path, backup_path := st.backup_path
         registry := registryErase st.registry nm id
         disk := { registryDoc := registryErase st.registry nm id
                   metaDocs := eraseAL (insertAL st.disk.metaDocs
                     (st.backup_path ++ "/" ++ id ++ "_" ++ env.stamp st.timeCtr ++ "/"
                       ++ (id ++ "_metadata.json")) md) e.metadata_path
                   artifacts := eraseAL (insertAL st.disk.artifacts
                     (st.backup_path ++ "/" ++ id ++ "_" ++ env.stamp st.timeCtr ++ "/"
                       ++ (id ++ ".pkl")) model) e.file_path
                   reads := st.disk.reads }
         writeCtr := st.writeCtr + 1, timeCtr := st.timeCtr + 1 }) := by
  simp [delete_model, backup_model, save_registry, hfind, hmdoc, hart, hbase_fp, hbase_mp, hw1]

/-- C5: for a model id present in the registry (with well-formed registry,
consistent metadata/artifact documents and a collision-free environment),
`delete_model` succeeds, a subsequent `load_model` of that id fails with
`NotFound`, restoring the backup taken during deletion succeeds and returns
a new model id distinct from the original, and that new id is loadable,
yielding the original artifact under metadata carrying the new id. -/
theorem c5_delete_restore_round_trip (hwf : RegistryWF st.registry)
    (hfind : findModel st.registry id = some (nm, e))
    (hmdoc : lookupAL st.disk.metaDocs e.metadata_path = some md)
    (hart : lookupAL st.disk.artifacts e.file_path = some model)
    (hmid : md.model_id = id)
    (hshape : id = generate_model_id md.model_name md.version ts₁)
    (hts₁ : TimestampOk ts₁)
    (hslash_id : '/' ∉ id.data)
    (hidlen : 18 ≤ id.data.length)
    (hbase_fp : baseName e.file_path = id ++ ".pkl")
    (hbase_mp : baseName e.metadata_path = id ++ "_metadata.json")
    (hext : extAfterDot md.file_path = "pkl")
    (hstray_m : ∀ p ∈ st.disk.metaDocs,
      directChild (st.backup_path ++ "/" ++ id ++ "_" ++ env.stamp st.timeCtr) p.1 = false)
    (hstray_a : ∀ p ∈ st.disk.artifacts,
      directChild (st.backup_path ++ "/" ++ id ++ "_" ++ env.stamp st.timeCtr) p.1 = false)
    (hfresh : ∀ p ∈ st.registry,
      lookupAL p.2 (generate_model_id md.model_name (md.version ++ "_restored") (env.stamp (st.timeCtr + 1))) = none)
    (hw₁ : env.writeOk st.writeCtr = true)
    (hw₂ : env.writeOk (st.writeCtr + 1) = true) :
    (delete_model env st id true).1 = .ok true ∧
    (load_model (delete_model env st id true).2 id).1 = .error .notFound ∧
    (restore_model env (delete_model env st id true).2
        (st.backup_path ++ "/" ++ id ++ "_" ++ env.stamp st.timeCtr)).1
      = .ok (generate_model_id md.model_name (md.version ++ "_restored") (env.stamp (st.timeCtr + 1))) ∧
    generate_model_id md.model_name (md.version ++ "_restored") (env.stamp (st.timeCtr + 1)) ≠ id ∧
    ∃ md', (load_model
        (restore_model env (delete_model env st id true).2
          (st.backup_path ++ "/" ++ id ++ "_" ++ env.stamp st.timeCtr)).2
        (generate_model_id md.model_name (md.version ++ "_restored") (env.stamp (st.timeCtr + 1)))).1
      = .ok (model, md') ∧
      md'.model_id = generate_model_id md.model_name (md.version ++ "_restored") (env.stamp (st.timeCtr + 1)) ∧
      md'.model_name = md.model_name := by
  have hdel := delete_model_full_state env st id nm e md model
    hfind hmdoc hart hbase_fp hbase_mp hw₁
  have hdel2 : (delete_model env st id true).2
      = { base_path := st.base_path, backup_path := st.backup_path
          registry := registryErase st.registry nm id
          disk := { registryDoc := registryErase st.registry nm id
                    metaDocs := eraseAL (insertAL st.disk.metaDocs
                      (st.backup_path ++ "/" ++ id ++ "_" ++ env.stamp st.timeCtr ++ "/"
                        ++ (id ++ "_metadata.json")) md) e.metadata_path
                    artifacts := eraseAL (insertAL st.disk.artifacts
                      (st.backup_path ++ "/" ++ id ++ "_" ++ env.stamp st.timeCtr ++ "/"
                        ++ (id ++ ".pkl")) model) e.file_path
                    reads := st.disk.reads }
          writeCtr := st.writeCtr + 1, timeCtr := st.timeCtr + 1 } := by
    rw [hdel]
  have hrest := restore_after_delete_full_state env st id nm e md model ts₁ hwf hfind hmdoc hart hmid
    hshape hts₁ hslash_id hidlen hext hstray_m hstray_a hw₂
  have hnoneE : findModel (registryErase st.registry nm id) id = none :=
    findModel_registryErase_self hwf hfind
  have hfreshE : findModel (registryErase st.registry nm id)
      (generate_model_id md.model_name (md.version ++ "_restored") (env.stamp (st.timeCtr + 1))) = none :=
    findModel_none_of_forall (registryErase_forall_none hfresh nm id)
  have hfindNew : findModel
      (registryInsert (registryErase st.registry nm id) md.model_name
        (generate_model_id md.model_name (md.version ++ "_restored") (env.stamp (st.timeCtr + 1)))
        { version := md.version ++ "_restored"
          training_date := md.training_date
          performance_metrics := md.performance_metrics
          file_path := (st.base_path ++ "/"
            ++ generate_model_id md.model_name (md.version ++ "_restored") (env.stamp (st.timeCtr + 1))
            ++ "/" ++ generate_model_id md.model_name (md.version ++ "_restored") (env.stamp (st.timeCtr + 1))
            ++ "." ++ "pkl")
          metadata_path := (st.base_path ++ "/"
            ++ generate_model_id md.model_name (md.version ++ "_restored") (env.stamp (st.timeCtr + 1))
            ++ "/" ++ generate_model_id md.model_name (md.version ++ "_restored") (env.stamp (st.timeCtr + 1))
            ++ "_metadata.json")
          active := some true })
      (generate_model_id md.model_name (md.version ++ "_restored") (env.stamp (st.timeCtr + 1)))
      = some (md.model_name,
        { version := md.version ++ "_restored"
          training_date := md.training_date
          performance_metrics := md.performance_metrics
          file_path := (st.base_path ++ "/"
            ++ generate_model_id md.model_name (md.version ++ "_restored") (env.stamp (st.timeCtr + 1))
            ++ "/" ++ generate_model_id md.model_name (md.version ++ "_restored") (env.stamp (st.timeCtr + 1))
            ++ "." ++ "pkl")
          metadata_path := (st.base_path ++ "/"
            ++ generate_model_id md.model_name (md.version ++ "_restored") (env.stamp (st.timeCtr + 1))
            ++ "/" ++ generate_model_id md.model_name (md.version ++ "_restored") (env.stamp (st.timeCtr + 1))
            ++ "_metadata.json")
          active := some true }) :=
    findModel_registryInsert_fresh _ _ _ _ hfreshE
  have hmL : lookupAL
      (insertAL
        (insertAL (eraseAL st.disk.metaDocs e.metadata_path
          ++ [((st.backup_path ++ "/" ++ id ++ "_" ++ env.stamp st.timeCtr ++ "/"
            ++ (id ++ "_metadata.json")), md)])
          (st.base_path ++ "/"
            ++ generate_model_id md.model_name (md.version ++ "_restored") (env.stamp (st.timeCtr + 1))
            ++ "/" ++ (generate_model_id md.model_name (md.version ++ "_restored") (env.stamp (st.timeCtr + 1)) ++ "_metadata.json"))
          md)
        (st.base_path ++ "/"
          ++ generate_model_id md.model_name (md.version ++ "_restored") (env.stamp (st.timeCtr + 1))
          ++ "/" ++ generate_model_id md.model_name (md.version ++ "_restored") (env.stamp (st.timeCtr + 1))
          ++ "_metadata.json")
        { md with
          model_id := generate_model_id md.model_name (md.version ++ "_restored") (env.stamp (st.timeCtr + 1))
          file_path := (st.base_path ++ "/"
            ++ generate_model_id md.model_name (md.version ++ "_restored") (env.stamp (st.timeCtr + 1))
            ++ "/" ++ generate_model_id md.model_name (md.version ++ "_restored") (env.stamp (st.timeCtr + 1))
            ++ "." ++ "pkl") })
      (st.base_path ++ "/"
        ++ generate_model_id md.model_name (md.version ++ "_restored") (env.stamp (st.timeCtr + 1))
        ++ "/" ++ generate_model_id md.model_name (md.version ++ "_restored") (env.stamp (st.timeCtr + 1))
        ++ "_metadata.json")
      = some { md with
          model_id := generate_model_id md.model_name (md.version ++ "_restored") (env.stamp (st.timeCtr + 1))
          file_path := (st.base_path ++ "/"
            ++ generate_model_id md.model_name (md.version ++ "_restored") (env.stamp (st.timeCtr + 1))
            ++ "/" ++ generate_model_id md.model_name (md.version ++ "_restored") (env.stamp (st.timeCtr + 1))
            ++ "." ++ "pkl") } :=
    lookupAL_insertAL_self _ _ _
  have hk : (st.base_path ++ "/"
        ++ generate_model_id md.model_name (md.version ++ "_restored") (env.stamp (st.timeCtr + 1))
        ++ "/" ++ generate_model_id md.model_name (md.version ++ "_restored") (env.stamp (st.timeCtr + 1))
        ++ "." ++ "pkl" : String)
      = st.base_path ++ "/"
        ++ generate_model_id md.model_name (md.version ++ "_restored") (env.stamp (st.timeCtr + 1))
        ++ "/" ++ (generate_model_id md.model_name (md.version ++ "_restored") (env.stamp (st.timeCtr + 1)) ++ ".pkl") := by
    rw [String.append_assoc, String.append_assoc]
    rfl
  have haL : lookupAL
      (insertAL (eraseAL st.disk.artifacts e.file_path
          ++ [((st.backup_path ++ "/" ++ id ++ "_" ++ env.stamp st.timeCtr ++ "/"
            ++ (id ++ ".pkl")), model)])
        (st.base_path ++ "/"
          ++ generate_model_id md.model_name (md.version ++ "_restored") (env.stamp (st.timeCtr + 1))
          ++ "/" ++ (generate_model_id md.model_name (md.version ++ "_restored") (env.stamp (st.timeCtr + 1)) ++ ".pkl"))
        model)
      (st.base_path ++ "/"
        ++ generate_model_id md.model_name (md.version ++ "_restored") (env.stamp (st.timeCtr + 1))
        ++ "/" ++ generate_model_id md.model_name (md.version ++ "_restored") (env.stamp (st.timeCtr + 1))
        ++ "." ++ "pkl")
      = some model := by
    rw [hk]
    exact lookupAL_insertAL_self _ _ _
  refine ⟨by rw [hdel], ?_, ?_, ?_, ?_⟩
  · rw [hdel2]
    simp only [load_model, hnoneE]
  · rw [hdel2, hrest]
  · rw [hshape]
    exact restored_id_ne _ _ _ _ hts₁
  · rw [hdel2, hrest]
    refine ⟨{ md with
        model_id := generate_model_id md.model_name (md.version ++ "_restored") (env.stamp (st.timeCtr + 1))
        file_path := (st.base_path ++ "/"
          ++ generate_model_id md.model_name (md.version ++ "_restored") (env.stamp (st.timeCtr + 1))
          ++ "/" ++ generate_model_id md.model_name (md.version ++ "_restored") (env.stamp (st.timeCtr + 1))
          ++ "." ++ "pkl") }, ?_, rfl, rfl⟩
    simp only [load_model, hfindNew, hmL, haL]


end

/-- Witness for C5: deleting the fixture model succeeds, loading it afterwards
fails with `NotFound`, restoring its deletion backup yields the distinct id
`m_v1_restored_20240102_130000`, which loads back the original artifact. -/
theorem c5_delete_restore_round_trip_witness :
    (delete_model envAllOk stFix5 "m_v1_20240101_120000" true).1 = .ok true ∧
    (load_model (delete_model envAllOk stFix5 "m_v1_20240101_120000" true).2
      "m_v1_20240101_120000").1 = .error .notFound ∧
    (restore_model envAllOk (delete_model envAllOk stFix5 "m_v1_20240101_120000" true).2
        (stFix5.backup_path ++ "/" ++ "m_v1_20240101_120000" ++ "_"
          ++ envAllOk.stamp stFix5.timeCtr)).1
      = .ok (generate_model_id mdFix5.model_name (mdFix5.version ++ "_restored") (envAllOk.stamp (stFix5.timeCtr + 1))) ∧
    generate_model_id mdFix5.model_name (mdFix5.version ++ "_restored") (envAllOk.stamp (stFix5.timeCtr + 1)) ≠ "m_v1_20240101_120000" ∧
    ∃ md', (load_model
        (restore_model envAllOk (delete_model envAllOk stFix5 "m_v1_20240101_120000" true).2
          (stFix5.backup_path ++ "/" ++ "m_v1_20240101_120000" ++ "_"
            ++ envAllOk.stamp stFix5.timeCtr)).2
        (generate_model_id mdFix5.model_name (mdFix5.version ++ "_restored") (envAllOk.stamp (stFix5.timeCtr + 1)))).1
      = .ok (scalarModel, md') ∧
      md'.model_id = generate_model_id mdFix5.model_name (mdFix5.version ++ "_restored") (envAllOk.stamp (stFix5.timeCtr + 1)) ∧
      md'.model_name = mdFix5.model_name :=
  c5_delete_restore_round_trip envAllOk stFix5 "m_v1_20240101_120000" "m" entryFix5
    mdFix5 scalarModel "20240101_120000" (by decide) rfl (by decide) rfl rfl (by decide)
    (by decide) (by decide) (by decide) (by decide) (by decide) (by decide) (by decide)
    (by decide) (by decide) rfl rfl

end BHC
